import Mathlib

/-!
Shallow embedding of the TV-show-tracker Library Store
(`src/src/TVShowTracker.jsx`) and proofs about its operations.

JavaScript objects keyed by season number are modelled as association
lists `List (Nat × List Episode)`; JS `undefined`/`null` optional fields
become `Option`; an operation that can throw a `TypeError` (such as
`show.seasons[season].map` when the season key is absent) is modelled as
an `Option`-valued function where `none` is the thrown exception.
-/

namespace TVTracker

/-- An episode record as built by `addShow`:
`{ id, number, name, airdate, watched }`. -/
structure Episode where
  id : Nat
  number : Nat
  name : String
  airdate : Option String
  watched : Bool
  deriving Repr, DecidableEq

/-- A season map: JS object from season number to the season's episode list. -/
abbrev SeasonMap := List (Nat × List Episode)

/-- One rewatch overlay: `{ watchNumber, seasons }`. -/
structure WatchOverlay where
  watchNumber : Nat
  seasons : SeasonMap
  deriving Repr, DecidableEq

/-- A tracked show, as built by `addShow` and mutated by the store. -/
structure Show where
  id : Nat
  name : String
  premiered : String
  image : String
  genres : List String
  source : String
  seasons : SeasonMap
  addedDate : String
  rewatches : List WatchOverlay
  currentRewatch : Option Nat
  deriving Repr, DecidableEq

/-- The library document: the `myShows` array. -/
abbrev Doc := List Show

/-- `isShowAdded`: `myShows.some ((s) => s.id === id)`. -/
def isShowAdded (doc : Doc) (id : Nat) : Bool :=
  doc.any (fun s => s.id == id)

/-- JS truthiness of `show.currentRewatch`: `!show.currentRewatch ||
show.currentRewatch === 1` (in JS both `undefined` and `0` are falsy). -/
def isFirstWatch (s : Show) : Bool :=
  match s.currentRewatch with
  | none => true
  | some n => n == 0 || n == 1

/-- `getCurrentWatchData`: the active overlay, falling back to the base
watch (`{ watchNumber: 1, seasons: show.seasons }`) when `currentRewatch`
is falsy, is `1`, or matches no entry of `rewatches`. -/
def getCurrentWatchData (s : Show) : WatchOverlay :=
  if isFirstWatch s then ⟨1, s.seasons⟩
  else
    match s.currentRewatch with
    | none => ⟨1, s.seasons⟩
    | some n =>
      match s.rewatches.find? (fun rw => rw.watchNumber == n) with
      | some rw => rw
      | none => ⟨1, s.seasons⟩

/-- Total episode count of a season map (`total += eps.length`). -/
def seasonsTotal (sm : SeasonMap) : Nat :=
  (sm.map (fun p => p.2.length)).sum

/-- Watched episode count of a season map
(`watched += eps.filter((e) => e.watched).length`). -/
def seasonsWatched (sm : SeasonMap) : Nat :=
  (sm.map (fun p => (p.2.filter (fun e => e.watched)).length)).sum

/-- Result record of `getWatchProgress`. -/
structure Progress where
  watched : Nat
  total : Nat
  percentage : Nat
  deriving Repr, DecidableEq

/-- The spec's exact rounding formula `round(100*watched/total)`: half-up
rounding of the exact rational, `⌊100·w/t + 1/2⌋ = (200·w + t) / (2·t)`.
Kept for comparison only: the program evaluates the expression in
binary64, which can land on the other side of a half (e.g. `w=23, t=40`). -/
def roundPct (w t : Nat) : Nat :=
  (200 * w + t) / (2 * t)

/-! The program computes `Math.round((watched / total) * 100)` in IEEE-754
binary64: the division and the multiplication each round their exact
result to 53 significant bits (nearest, ties to even), and `Math.round`
then takes the integral value closest to that double, halves toward +∞
(exact per the ES spec).  The model below computes this bit-exactly over
naturals: a double is represented as `mantissa · 2^exponent` (exponent
unbounded — every value reached here is far inside the normal range, and
the integer episode counts are themselves exact doubles, being < 2^53). -/

/-- `⌊log₂ n⌋` for `n ≥ 1`, fuel-structured. -/
def natLog2Aux : Nat → Nat → Nat
  | 0, _ => 0
  | fuel + 1, n => if n < 2 then 0 else natLog2Aux fuel (n / 2) + 1

def natLog2 (n : Nat) : Nat := natLog2Aux n n

/-- Decides `a / b < 2^c` for naturals `a`, `b ≥ 1`. -/
def ratLtPow2 (a b : Nat) (c : Int) : Bool :=
  if 0 ≤ c then a < b * 2 ^ c.toNat else a * 2 ^ (-c).toNat < b

/-- `⌊log₂ (a / b)⌋` for `a, b ≥ 1`. -/
def ratLog2 (a b : Nat) : Int :=
  if ratLtPow2 a b ((natLog2 a : Int) - (natLog2 b : Int)) then
    (natLog2 a : Int) - (natLog2 b : Int) - 1
  else (natLog2 a : Int) - (natLog2 b : Int)

/-- Round `a / b` (with `b > 0`) to the nearest integer, ties to even. -/
def rheNat (a b : Nat) : Nat :=
  if 2 * (a % b) < b then a / b
  else if b < 2 * (a % b) then a / b + 1
  else if (a / b) % 2 = 0 then a / b else a / b + 1

/-- The binary64 value nearest `a / b` (`b > 0`), as a mantissa–exponent
pair `(m, e)` standing for `m · 2^e` with `m` rounded to 53 bits. -/
def flRat (a b : Nat) : Nat × Int :=
  if a = 0 then (0, 0)
  else if 0 ≤ 52 - ratLog2 a b then
    (rheNat (a * 2 ^ (52 - ratLog2 a b).toNat) b, ratLog2 a b - 52)
  else (rheNat a (b * 2 ^ (ratLog2 a b - 52).toNat), ratLog2 a b - 52)

/-- Numerator scale of `2^e`: `2^e` when `e ≥ 0`, else 1. -/
def pow2Pos (e : Int) : Nat := if 0 ≤ e then 2 ^ e.toNat else 1

/-- Denominator scale of `2^e`: 1 when `e ≥ 0`, else `2^(-e)`. -/
def pow2Neg (e : Int) : Nat := if 0 ≤ e then 1 else 2 ^ (-e).toNat

/-- `Math.round` of the double `m · 2^e` (nonnegative): the integral
value closest to it, halves rounded toward +∞. -/
def jsRoundPair (m : Nat) (e : Int) : Nat :=
  if 0 ≤ e then m * 2 ^ e.toNat
  else (2 * m + 2 ^ (-e).toNat) / (2 * 2 ^ (-e).toNat)

/-- `Math.round((w / t) * 100)` computed in binary64: round `w / t` to a
double, multiply by 100 and round to a double again, then `Math.round`. -/
def jsPercent (w t : Nat) : Nat :=
  let d := flRat w t
  let p := flRat (d.1 * 100 * pow2Pos d.2) (pow2Neg d.2)
  jsRoundPair p.1 p.2

/-- `getWatchProgress`: counts over the currently active overlay's season
map; `percentage = total > 0 ? Math.round((watched/total)*100) : 0`,
with the arithmetic in binary64. -/
def getWatchProgress (s : Show) : Progress :=
  let sm := (getCurrentWatchData s).seasons
  let t := seasonsTotal sm
  let w := seasonsWatched sm
  ⟨w, t, if 0 < t then jsPercent w t else 0⟩

/-- `getSeasonProgress`: watched/total over one episode list. -/
def getSeasonProgress (episodes : List Episode) : Nat × Nat :=
  ((episodes.filter (fun e => e.watched)).length, episodes.length)

/-- First-match lookup of a season key, i.e. JS `sm[season]`
(`none` = `undefined`). -/
def lookupSeason (sm : SeasonMap) (season : Nat) : Option (List Episode) :=
  (sm.find? (fun p => p.1 == season)).map (fun p => p.2)

/-- `{...sm, [season]: f(sm[season])}` when `season` is present;
`none` models the `TypeError` JS throws on `sm[season].map` when the
key is absent. -/
def updateSeason (sm : SeasonMap) (season : Nat)
    (f : List Episode → List Episode) : Option SeasonMap :=
  match sm with
  | [] => none
  | p :: ps =>
    if p.1 == season then some ((p.1, f p.2) :: ps)
    else (updateSeason ps season f).map (fun ps2 => p :: ps2)

/-- `Option`-propagating map over a list (the JS `map` callbacks here can
throw, which aborts the whole state update). -/
def optMap (f : α → Option β) : List α → Option (List β)
  | [] => some []
  | x :: xs =>
    match f x, optMap f xs with
    | some y, some ys => some (y :: ys)
    | _, _ => none

/-- The episode-level callback of `toggleEpisodeWatched`:
`e.id === epId ? { ...e, watched: !e.watched } : e`. -/
def flipEpisode (epId : Nat) (e : Episode) : Episode :=
  if e.id == epId then { e with watched := !e.watched } else e

/-- Common body of `toggleEpisodeWatched` and `markSeasonComplete` for one
show (the two JS functions are textually parallel, differing only in the
per-episode callback `f`): maps `f` over one season of the base seasons
when on the first watch, otherwise over one season of the rewatch overlay
whose `watchNumber` equals `currentRewatch`. -/
def updateActiveSeason (s : Show) (season : Nat) (f : Episode → Episode) : Option Show :=
  if isFirstWatch s then
    (updateSeason s.seasons season (fun eps => eps.map f)).map
      (fun sm => { s with seasons := sm })
  else
    (optMap
      (fun rw =>
        if rw.watchNumber == (s.currentRewatch.getD 0) then
          (updateSeason rw.seasons season (fun eps => eps.map f)).map
            (fun sm => { rw with seasons := sm })
        else some rw)
      s.rewatches).map
      (fun rws => { s with rewatches := rws })

/-- `toggleEpisodeWatched` restricted to one show (the body of the
`prev.map` callback for the matching id). -/
def toggleEpisodeShow (s : Show) (season epId : Nat) : Option Show :=
  updateActiveSeason s season (flipEpisode epId)

/-- `toggleEpisodeWatched(id, season, epId)` on the whole document. -/
def toggleEpisodeWatched (doc : Doc) (id season epId : Nat) : Option Doc :=
  optMap (fun s => if s.id == id then toggleEpisodeShow s season epId else some s) doc

/-- `markSeasonComplete` restricted to one show: sets `watched` uniformly
on every episode of the season within the active overlay. -/
def markSeasonShow (s : Show) (season : Nat) (w : Bool) : Option Show :=
  updateActiveSeason s season (fun e => { e with watched := w })

/-- `markSeasonComplete(id, season, watched)` on the whole document. -/
def markSeasonComplete (doc : Doc) (id season : Nat) (w : Bool) : Option Doc :=
  optMap (fun s => if s.id == id then markSeasonShow s season w else some s) doc

/-- The season-map clone built by `startRewatch`: every episode copied
with `watched: false`. -/
def cloneSeasonsUnwatched (sm : SeasonMap) : SeasonMap :=
  sm.map (fun p => (p.1, p.2.map (fun e => { e with watched := false })))

/-- `startRewatch` restricted to one show: appends a fresh overlay with
`watchNumber = rewatches.length + 2` and makes it current. -/
def startRewatchShow (s : Show) : Show :=
  let nextNum := s.rewatches.length + 2
  { s with
    rewatches := s.rewatches ++ [⟨nextNum, cloneSeasonsUnwatched s.seasons⟩],
    currentRewatch := some nextNum }

/-- `startRewatch(id)` on the whole document. -/
def startRewatch (doc : Doc) (id : Nat) : Doc :=
  doc.map (fun s => if s.id == id then startRewatchShow s else s)

/-- `switchToWatch(id, watchNumber)`. -/
def switchToWatch (doc : Doc) (id watchNumber : Nat) : Doc :=
  doc.map (fun s => if s.id == id then { s with currentRewatch := some watchNumber } else s)

/-- `removeShow(id)` (the confirmed path). -/
def removeShow (doc : Doc) (id : Nat) : Doc :=
  doc.filter (fun s => !(s.id == id))

/-- `updateSource(id, value)`. -/
def updateSource (doc : Doc) (id : Nat) (v : String) : Doc :=
  doc.map (fun s => if s.id == id then { s with source := v } else s)

/-- A catalog search result summary as consumed by `addShow`
(`show.image?.medium || show.image?.original || ""` already resolved). -/
structure CatalogShow where
  id : Nat
  name : String
  image : String
  deriving Repr, DecidableEq

/-- One episode from the catalog's embedded episode list. -/
structure CatalogEpisode where
  id : Nat
  season : Nat
  number : Nat
  name : String
  airdate : Option String
  deriving Repr, DecidableEq

/-- The catalog detail response used by `addShow` (`details.premiered || ""`
and `details.genres || []` already resolved; `none` for the whole record
models a failed fetch). -/
structure ShowDetails where
  premiered : String
  genres : List String
  episodes : List CatalogEpisode
  deriving Repr, DecidableEq

/-- Insert one catalog episode into the per-season grouping
(`episodesBySeason[s].push({...})`, creating the key on first use). -/
def pushEpisode (sm : SeasonMap) (ep : CatalogEpisode) : SeasonMap :=
  match sm with
  | [] => [(ep.season, [⟨ep.id, ep.number, ep.name, ep.airdate, false⟩])]
  | p :: ps =>
    if p.1 == ep.season then (p.1, p.2 ++ [⟨ep.id, ep.number, ep.name, ep.airdate, false⟩]) :: ps
    else p :: pushEpisode ps ep

/-- `eps.forEach(...)` grouping episodes by season, all `watched: false`. -/
def groupEpisodes (eps : List CatalogEpisode) : SeasonMap :=
  eps.foldl pushEpisode []

/-- `addShow(show)` with the awaited fetch result passed explicitly
(`details = none` models the failed fetch) and `now` the timestamp:
no-op when the id is already present, otherwise prepends the new show. -/
def addShow (doc : Doc) (cs : CatalogShow) (details : Option ShowDetails)
    (now : String) : Doc :=
  if isShowAdded doc cs.id then doc
  else
    match details with
    | none => doc
    | some d =>
      ⟨cs.id, cs.name, d.premiered, cs.image, d.genres, "",
        groupEpisodes d.episodes, now, [], none⟩ :: doc

/-! ### The overlay-shape invariant (C4) -/

/-- The shape of a season map: its season keys with the episode-id list of
each season (forgetting everything but identity and grouping). -/
def shape (sm : SeasonMap) : List (Nat × List Nat) :=
  sm.map (fun p => (p.1, p.2.map Episode.id))

/-- Invariant of one show: every rewatch overlay has exactly the same
season keys and per-season episode ids as the base `seasons`. -/
def ShowInv (s : Show) : Prop :=
  ∀ rw ∈ s.rewatches, shape rw.seasons = shape s.seasons

/-- Invariant of the whole document. -/
def DocInv (doc : Doc) : Prop :=
  ∀ s ∈ doc, ShowInv s

instance (s : Show) : Decidable (ShowInv s) := by
  unfold ShowInv; infer_instance

instance (doc : Doc) : Decidable (DocInv doc) := by
  unfold DocInv; infer_instance

/-! ### Demo values used by witness theorems -/

/-- Two concrete episodes. -/
def epW : Episode := ⟨10, 1, "Pilot", some "2020-01-01", true⟩

def epU : Episode := ⟨11, 2, "Two", none, false⟩

/-- A concrete show on its first watch. -/
def demoShow : Show :=
  ⟨1, "Demo", "2020-01-01", "", ["Drama"], "", [(1, [epW, epU])], "2024-01-01", [], none⟩

def demoDoc : Doc := [demoShow]

/-- `demoDoc` after toggling episode 10 of season 1 (computed value). -/
def demoDocToggled : Doc :=
  [{ demoShow with seasons := [(1, [{ epW with watched := false }, epU])] }]

/-- `demoDoc` after marking season 1 watched (computed value). -/
def demoDocMarked : Doc :=
  [{ demoShow with
      seasons := [(1, [epW, { epU with watched := true }])] }]

/-- A concrete show with one materialized rewatch (watch #2) active. -/
def demoRwShow : Show :=
  { demoShow with
    rewatches := [⟨2, [(1, [{ epW with watched := false }, { epU with watched := false }])]⟩],
    currentRewatch := some 2 }

/-- A concrete show whose `currentRewatch` (5) matches no rewatch entry. -/
def cDangShow : Show := { demoShow with currentRewatch := some 5 }

/-- A concrete show with 23 of its 40 episodes watched. -/
def demoShow2340 : Show :=
  ⟨7, "Forty", "2020-01-01", "", [], "",
    [(1, (List.range 40).map (fun i => ⟨100 + i, i + 1, "e", none, decide (i < 23)⟩))],
    "t", [], none⟩

/-! ### Sorting by year (C8) -/

/-- The digit scan of `parseInt`: the value of the leading decimal digits,
`none` when there is no leading digit (NaN). -/
def leadingNat (cs : List Char) : Option Nat :=
  let ds := cs.takeWhile Char.isDigit
  if ds.isEmpty then none
  else some (ds.foldl (fun a c => 10 * a + (c.toNat - 48)) 0)

/-- JS `parseInt` on a short string: skip spaces, optional sign, decimal
digits; `none` models `NaN`. -/
def parseIntJS (cs : List Char) : Option Int :=
  match cs.dropWhile (fun c => c = ' ') with
  | '-' :: rest => (leadingNat rest).map (fun n => -(n : Int))
  | '+' :: rest => (leadingNat rest).map (fun n => (n : Int))
  | rest => (leadingNat rest).map (fun n => (n : Int))

/-- The year key of the `case "year"` comparator:
`a.premiered ? parseInt(a.premiered.slice(0, 4)) : 0`
(empty string is falsy, hence year 0); `none` models `NaN`. -/
def yearKey (s : Show) : Option Int :=
  if s.premiered = "" then some 0
  else parseIntJS (s.premiered.data.take 4)

/-- The `case "year"` comparator `(a, b) => yb - ya`; a NaN comparison
result is treated as `+0` by `Array.prototype.sort`, i.e. "equal". -/
def yearCmp (a b : Show) : Int :=
  match yearKey a, yearKey b with
  | some ya, some yb => yb - ya
  | _, _ => 0

/-- Stable insertion: `x` goes in front of the first element it does not
strictly follow under the comparator. -/
def insertCmp (c : α → α → Int) (x : α) : List α → List α
  | [] => [x]
  | y :: ys => if c x y ≤ 0 then x :: y :: ys else y :: insertCmp c x ys

/-- Stable comparator sort (JS `Array.prototype.sort` is stable; on a
consistent comparator every stable sort computes the same list). -/
def sortByCmp (c : α → α → Int) (l : List α) : List α :=
  l.foldr (insertCmp c) []

/-- The `case "year"` branch of `getSortedShows`. -/
def sortShowsYear (shows : List Show) : List Show :=
  sortByCmp yearCmp shows

/-- A show whose `premiered` has no leading digit (`parseInt` gives NaN). -/
def cShowNaN : Show := ⟨3, "N", "abcd", "", [], "", [], "t", [], none⟩

/-- A show premiered in 2020. -/
def cShow2020 : Show := ⟨4, "Y", "2020-01-01", "", [], "", [], "t", [], none⟩

/-- A show premiered in 1999. -/
def cShow1999 : Show := ⟨5, "O", "1999-05-05", "", [], "", [], "t", [], none⟩

/-! ### JSON export / import (C9)

`exportJSON` writes `JSON.stringify(myShows, null, 2)` and `importData`
reads the file back with `JSON.parse` and installs the result as the new
document.  The text codec (`JSON.stringify`/`JSON.parse`) is the
platform's; it is modelled at the parse-tree level: `Json` below is the
parse tree of the exported text, `exportJSON` produces the tree that
`JSON.stringify` serializes, and `importData` maps a parse tree back to a
document exactly as the untyped parsed value is consumed by the app
(object keys looked up by name, a missing `currentRewatch` key meaning
"first watch", `null` airdates). -/

/-- A JSON value. -/
inductive Json where
  | null
  | bool (b : Bool)
  | num (n : Int)
  | str (s : String)
  | arr (xs : List Json)
  | obj (fields : List (String × Json))

/-- Decimal digits of `n` (most significant first), fuel-structured;
`JSON.stringify` prints object keys (season numbers) this way. -/
def natToStringAux : Nat → Nat → List Char
  | 0, _ => []
  | fuel + 1, n =>
    if n = 0 then []
    else natToStringAux fuel (n / 10) ++ [Char.ofNat (48 + n % 10)]

/-- Decimal rendering of a natural number, as `String(n)` in JS. -/
def natToString (n : Nat) : String :=
  if n = 0 then "0" else ⟨natToStringAux n n⟩

/-- Parse a nonempty all-digit character list as a decimal number. -/
def natFromChars : List Char → Option Nat
  | [] => none
  | c :: cs =>
    if (c :: cs).all Char.isDigit then
      some ((c :: cs).foldl (fun a c => 10 * a + (c.toNat - 48)) 0)
    else none

/-- Parse a decimal string back to a natural number (the inverse reading
of an object key). -/
def natFromString (s : String) : Option Nat :=
  natFromChars s.data

/-- JS property lookup on a parsed object (`undefined` = `none`). -/
def jLookup (fs : List (String × Json)) (k : String) : Option Json :=
  (fs.find? (fun p => p.1 == k)).map (fun p => p.2)

def decodeNat : Json → Option Nat
  | .num n => if 0 ≤ n then some n.toNat else none
  | _ => none

def decodeString : Json → Option String
  | .str s => some s
  | _ => none

def decodeBool : Json → Option Bool
  | .bool b => some b
  | _ => none

def decodeOptString : Json → Option (Option String)
  | .null => some none
  | .str s => some (some s)
  | _ => none

/-- One episode as serialized by `JSON.stringify`. -/
def encodeEpisode (e : Episode) : Json :=
  .obj [("id", .num e.id), ("number", .num e.number), ("name", .str e.name),
    ("airdate", match e.airdate with | none => .null | some a => .str a),
    ("watched", .bool e.watched)]

def decodeEpisode : Json → Option Episode
  | .obj fs => do
    let ji ← jLookup fs "id"
    let i ← decodeNat ji
    let jn ← jLookup fs "number"
    let n ← decodeNat jn
    let jm ← jLookup fs "name"
    let m ← decodeString jm
    let ja ← jLookup fs "airdate"
    let a ← decodeOptString ja
    let jw ← jLookup fs "watched"
    let w ← decodeBool jw
    some ⟨i, n, m, a, w⟩
  | _ => none

/-- A season map serialized as a JSON object keyed by season number. -/
def encodeSeasonMap (sm : SeasonMap) : Json :=
  .obj (sm.map (fun p => (natToString p.1, .arr (p.2.map encodeEpisode))))

def decodeSeasonEntry (p : String × Json) : Option (Nat × List Episode) := do
  let k ← natFromString p.1
  match p.2 with
  | .arr xs => do
    let eps ← optMap decodeEpisode xs
    some (k, eps)
  | _ => none

def decodeSeasonMap : Json → Option SeasonMap
  | .obj fs => optMap decodeSeasonEntry fs
  | _ => none

def encodeOverlay (rw : WatchOverlay) : Json :=
  .obj [("watchNumber", .num rw.watchNumber), ("seasons", encodeSeasonMap rw.seasons)]

def decodeOverlay : Json → Option WatchOverlay
  | .obj fs => do
    let jn ← jLookup fs "watchNumber"
    let n ← decodeNat jn
    let js ← jLookup fs "seasons"
    let sm ← decodeSeasonMap js
    some ⟨n, sm⟩
  | _ => none

/-- One show as serialized by `JSON.stringify`; the `currentRewatch` key
is present only when the field is set (an unset JS property is omitted). -/
def encodeShow (s : Show) : Json :=
  .obj ([("id", .num s.id), ("name", .str s.name), ("premiered", .str s.premiered),
    ("image", .str s.image), ("genres", .arr (s.genres.map Json.str)),
    ("source", .str s.source), ("seasons", encodeSeasonMap s.seasons),
    ("addedDate", .str s.addedDate),
    ("rewatches", .arr (s.rewatches.map encodeOverlay))] ++
    (match s.currentRewatch with
      | none => []
      | some n => [("currentRewatch", .num n)]))

def decodeStringList : Json → Option (List String)
  | .arr xs => optMap decodeString xs
  | _ => none

def decodeOverlayList : Json → Option (List WatchOverlay)
  | .arr xs => optMap decodeOverlay xs
  | _ => none

/-- An absent `currentRewatch` property reads back as "unset". -/
def decodeCurrentRewatch : Option Json → Option (Option Nat)
  | none => some none
  | some j => (decodeNat j).map some

def decodeShow : Json → Option Show
  | .obj fs => do
    let i ← (jLookup fs "id").bind decodeNat
    let m ← (jLookup fs "name").bind decodeString
    let p ← (jLookup fs "premiered").bind decodeString
    let im ← (jLookup fs "image").bind decodeString
    let g ← (jLookup fs "genres").bind decodeStringList
    let src ← (jLookup fs "source").bind decodeString
    let se ← (jLookup fs "seasons").bind decodeSeasonMap
    let ad ← (jLookup fs "addedDate").bind decodeString
    let rws ← (jLookup fs "rewatches").bind decodeOverlayList
    let cur ← decodeCurrentRewatch (jLookup fs "currentRewatch")
    some ⟨i, m, p, im, g, src, se, ad, rws, cur⟩
  | _ => none

/-- `exportJSON`: the parse tree of the exported backup text. -/
def exportJSON (doc : Doc) : Json :=
  .arr (doc.map encodeShow)

/-- `importData`: reading a parsed backup back into a document. -/
def importData : Json → Option Doc
  | .arr xs => optMap decodeShow xs
  | _ => none

/-! ### Spreadsheet export (C10) -/

/-- One data row of the sheet written by `exportExcel`: show name,
premiere year, joined genres, source, watched count, total count,
progress fraction (formatted as a percentage by the cell style), status
label, rewatch count. -/
structure ExcelRow where
  name : String
  year : String
  genres : String
  source : String
  watched : Nat
  total : Nat
  progress : Rat
  status : String
  rewatchCount : String
  deriving Repr, DecidableEq

/-- The per-show row computation of `exportExcel`: counts are reduced
over `show.seasons` (the base watch), `progress = total ? watched/total
: 0`, status compares `progress === 1`, and the rewatch column shows
`rewatches.length` when nonzero. -/
def excelRow (s : Show) : ExcelRow :=
  let total := seasonsTotal s.seasons
  let watched := seasonsWatched s.seasons
  let progress : Rat := if total ≠ 0 then (watched : Rat) / (total : Rat) else 0
  { name := s.name
    year := if s.premiered = "" then "" else ⟨s.premiered.data.take 4⟩
    genres := String.intercalate ", " s.genres
    source := s.source
    watched := watched
    total := total
    progress := progress
    status := if progress = 1 then "✓ COMPLETED" else "In Progress"
    rewatchCount := if s.rewatches.length ≠ 0 then natToString s.rewatches.length else "" }

/-! ### Basic lemmas -/

theorem isShowAdded_eq_false_iff (doc : Doc) (id : Nat) :
    isShowAdded doc id = false ↔ ∀ s ∈ doc, s.id ≠ id := by
  simp [isShowAdded, List.any_eq_true]

theorem addShow_of_present (doc : Doc) (cs : CatalogShow) (det : Option ShowDetails)
    (now : String) (h : isShowAdded doc cs.id = true) :
    addShow doc cs det now = doc := by
  simp [addShow, h]

theorem addShow_ids_nodup (doc : Doc) (cs : CatalogShow) (det : Option ShowDetails)
    (now : String) (h : (doc.map Show.id).Nodup) :
    ((addShow doc cs det now).map Show.id).Nodup := by
  unfold addShow
  cases hadd : isShowAdded doc cs.id with
  | true => simpa using h
  | false =>
    cases det with
    | none => simpa using h
    | some d =>
      simp only [Bool.false_eq_true, if_false, List.map_cons, List.nodup_cons]
      refine ⟨?_, h⟩
      rw [isShowAdded_eq_false_iff] at hadd
      simp only [List.mem_map]
      rintro ⟨s, hs, hid⟩
      exact hadd s hs hid

theorem foldl_addShow_ids_nodup (ops : List (CatalogShow × Option ShowDetails × String))
    (doc : Doc) (h : (doc.map Show.id).Nodup) :
    (((ops.foldl (fun d o => addShow d o.1 o.2.1 o.2.2) doc)).map Show.id).Nodup := by
  induction ops generalizing doc with
  | nil => exact h
  | cons o ops ih => exact ih _ (addShow_ids_nodup doc o.1 o.2.1 o.2.2 h)

theorem seasonsWatched_le_seasonsTotal (sm : SeasonMap) :
    seasonsWatched sm ≤ seasonsTotal sm := by
  unfold seasonsWatched seasonsTotal
  refine List.sum_le_sum ?_
  intro p _
  exact List.length_filter_le _ _

/-! ### Correctness of the binary64 model (C2) -/

theorem natLog2Aux_spec :
    ∀ fuel n, 0 < n → n ≤ fuel →
      2 ^ natLog2Aux fuel n ≤ n ∧ n < 2 ^ (natLog2Aux fuel n + 1) := by
  intro fuel
  induction fuel with
  | zero =>
    intro n hn hf
    omega
  | succ fuel ih =>
    intro n hn hf
    unfold natLog2Aux
    by_cases h2 : n < 2
    · rw [if_pos h2]
      constructor
      · simpa using hn
      · simpa using h2
    · rw [if_neg h2]
      have hpos : 0 < n / 2 := by omega
      have hle : n / 2 ≤ fuel := by omega
      obtain ⟨ih1, ih2⟩ := ih (n / 2) hpos hle
      have e1 : 2 ^ (natLog2Aux fuel (n / 2) + 1) = 2 * 2 ^ natLog2Aux fuel (n / 2) := by
        ring
      have e2 : 2 ^ (natLog2Aux fuel (n / 2) + 1 + 1) =
          2 * 2 ^ (natLog2Aux fuel (n / 2) + 1) := by
        ring
      omega

theorem natLog2_spec (n : Nat) (hn : 0 < n) :
    2 ^ natLog2 n ≤ n ∧ n < 2 ^ (natLog2 n + 1) :=
  natLog2Aux_spec n n hn le_rfl

/-- Cast bridge: an integer power of two with a nonnegative exponent. -/
theorem zpow_toNat (c : Int) (hc : 0 ≤ c) :
    ((2:ℚ)) ^ c = ((2 ^ c.toNat : Nat) : ℚ) := by
  push_cast
  rw [← zpow_natCast (2:ℚ) c.toNat, Int.toNat_of_nonneg hc]

theorem rheNat_bounds (a b : Nat) (hb : 0 < b) :
    (a : ℚ) / b - 1 / 2 ≤ (rheNat a b : ℚ) ∧
    (rheNat a b : ℚ) ≤ (a : ℚ) / b + 1 / 2 := by
  have hb' : (0:ℚ) < b := by exact_mod_cast hb
  have key : (a:ℚ) = b * ((a / b : Nat) : ℚ) + ((a % b : Nat) : ℚ) := by
    exact_mod_cast (Nat.div_add_mod a b).symm
  have hq : (a:ℚ) / b = ((a / b : Nat) : ℚ) + ((a % b : Nat) : ℚ) / b := by
    rw [key]
    field_simp
    ring
  have hr0 : (0:ℚ) ≤ ((a % b : Nat):ℚ) / b := by positivity
  unfold rheNat
  split_ifs with h1 h2 h3
  · have hc : ((2 * (a % b) : Nat) : ℚ) < (b : ℚ) := by exact_mod_cast h1
    push_cast at hc
    have hr : ((a % b : Nat) : ℚ) / b < 1 / 2 := by
      rw [div_lt_iff₀ hb']
      linarith
    constructor <;> rw [hq] <;> linarith
  · have hc : (b : ℚ) < ((2 * (a % b) : Nat) : ℚ) := by exact_mod_cast h2
    push_cast at hc
    have hrb : ((a % b : Nat):ℚ) / b ≤ 1 := by
      rw [div_le_one hb']
      exact_mod_cast (Nat.mod_lt a hb).le
    have hr : 1 / 2 < ((a % b : Nat) : ℚ) / b := by
      rw [lt_div_iff₀ hb']
      linarith
    constructor <;> rw [hq] <;> push_cast <;> linarith
  · have hc : ((2 * (a % b) : Nat) : ℚ) = (b : ℚ) := by
      exact_mod_cast congrArg (Nat.cast : Nat → ℚ) (by omega : 2 * (a % b) = b)
    push_cast at hc
    have hr : ((a % b : Nat) : ℚ) / b = 1 / 2 := by
      rw [div_eq_iff hb'.ne']
      linarith
    constructor <;> rw [hq] <;> linarith
  · have hc : ((2 * (a % b) : Nat) : ℚ) = (b : ℚ) := by
      exact_mod_cast congrArg (Nat.cast : Nat → ℚ) (by omega : 2 * (a % b) = b)
    push_cast at hc
    have hr : ((a % b : Nat) : ℚ) / b = 1 / 2 := by
      rw [div_eq_iff hb'.ne']
      linarith
    constructor <;> rw [hq] <;> push_cast <;> linarith

theorem ratLtPow2_iff (a b : Nat) (c : Int) (hb : 0 < b) :
    ratLtPow2 a b c = true ↔ (a:ℚ) / b < 2 ^ c := by
  have hb' : (0:ℚ) < b := by exact_mod_cast hb
  unfold ratLtPow2
  split_ifs with hc
  · rw [decide_eq_true_iff, div_lt_iff₀ hb', zpow_toNat c hc]
    rw [show ((2 ^ c.toNat : Nat) : ℚ) * (b:ℚ) = ((2 ^ c.toNat * b : Nat) : ℚ) by push_cast; ring]
    rw [Nat.cast_lt, Nat.mul_comm]
  · push_neg at hc
    have hc' : 0 ≤ -c := by omega
    have hD : ((2 ^ (-c).toNat : Nat) : ℚ) = 2 ^ (-c : ℤ) := (zpow_toNat (-c) hc').symm
    have hD' : (0:ℚ) < ((2 ^ (-c).toNat : Nat) : ℚ) := by
      rw [hD]
      exact zpow_pos (by norm_num) _
    rw [decide_eq_true_iff]
    rw [show ((2:ℚ) ^ c) = 1 / ((2 ^ (-c).toNat : Nat) : ℚ) by
      rw [hD, one_div, ← zpow_neg, neg_neg]]
    rw [div_lt_div_iff₀ hb' hD', one_mul]
    rw [show ((a:ℚ)) * ((2 ^ (-c).toNat : Nat) : ℚ) = ((a * 2 ^ (-c).toNat : Nat) : ℚ) by
      push_cast; ring]
    rw [Nat.cast_lt]

theorem ratLog2_spec (a b : Nat) (ha : 0 < a) (hb : 0 < b) :
    (2:ℚ) ^ ratLog2 a b ≤ (a:ℚ) / b ∧ (a:ℚ) / b < 2 ^ (ratLog2 a b + 1) := by
  have ha' : (0:ℚ) < a := by exact_mod_cast ha
  have hb' : (0:ℚ) < b := by exact_mod_cast hb
  obtain ⟨ha1, ha2⟩ := natLog2_spec a ha
  obtain ⟨hb1, hb2⟩ := natLog2_spec b hb
  have h2 : (2:ℚ) ≠ 0 := by norm_num
  have castA1 : (2:ℚ) ^ (natLog2 a : ℤ) ≤ (a:ℚ) := by
    rw [zpow_natCast]
    exact_mod_cast ha1
  have castA2 : (a:ℚ) < 2 ^ ((natLog2 a : ℤ) + 1) := by
    rw [show ((natLog2 a : ℤ) + 1) = ((natLog2 a + 1 : Nat) : ℤ) by push_cast; ring,
      zpow_natCast]
    exact_mod_cast ha2
  have castB1 : (2:ℚ) ^ (natLog2 b : ℤ) ≤ (b:ℚ) := by
    rw [zpow_natCast]
    exact_mod_cast hb1
  have castB2 : (b:ℚ) < 2 ^ ((natLog2 b : ℤ) + 1) := by
    rw [show ((natLog2 b : ℤ) + 1) = ((natLog2 b + 1 : Nat) : ℤ) by push_cast; ring,
      zpow_natCast]
    exact_mod_cast hb2
  set c : ℤ := (natLog2 a : ℤ) - (natLog2 b : ℤ) with hcdef
  have hA : (a:ℚ) / b < 2 ^ (c + 1) := by
    rw [div_lt_iff₀ hb']
    calc (a:ℚ) < 2 ^ ((natLog2 a : ℤ) + 1) := castA2
      _ = 2 ^ (c + 1) * 2 ^ (natLog2 b : ℤ) := by
          rw [← zpow_add₀ h2]
          congr 1
          omega
      _ ≤ 2 ^ (c + 1) * b := by
          apply mul_le_mul_of_nonneg_left castB1 (zpow_pos (by norm_num) _).le
  have hB : (2:ℚ) ^ (c - 1) ≤ (a:ℚ) / b := by
    rw [le_div_iff₀ hb']
    have hBlt : (2:ℚ) ^ (c - 1) * b < (a:ℚ) := by
      calc (2:ℚ) ^ (c - 1) * b < 2 ^ (c - 1) * 2 ^ ((natLog2 b : ℤ) + 1) := by
            apply mul_lt_mul_of_pos_left castB2 (zpow_pos (by norm_num) _)
        _ = 2 ^ (natLog2 a : ℤ) := by
            rw [← zpow_add₀ h2]
            congr 1
            omega
        _ ≤ (a:ℚ) := castA1
    exact hBlt.le
  have hre : ratLog2 a b = if ratLtPow2 a b c then c - 1 else c := rfl
  rw [hre]
  split_ifs with hlt
  · rw [ratLtPow2_iff a b c hb] at hlt
    constructor
    · exact hB
    · rw [sub_add_cancel]
      exact hlt
  · rw [ratLtPow2_iff a b c hb] at hlt
    exact ⟨le_of_not_lt hlt, hA⟩

theorem pow2Neg_pos (e : Int) : 0 < pow2Neg e := by
  unfold pow2Neg
  split_ifs
  · exact one_pos
  · exact pow_pos (by norm_num) _

theorem pow2_ratio (e : Int) :
    ((pow2Pos e : Nat) : ℚ) / ((pow2Neg e : Nat) : ℚ) = 2 ^ e := by
  unfold pow2Pos pow2Neg
  split_ifs with he
  · rw [Nat.cast_one, div_one, ← zpow_toNat e he]
  · push_neg at he
    rw [Nat.cast_one, ← zpow_toNat (-e) (by omega)]
    rw [one_div, ← zpow_neg, neg_neg]

theorem fl_core (a b A B : Nat) (e0 : Int) (hB : 0 < B)
    (hratio : (A:ℚ) / B = ((a:ℚ) / b) * 2 ^ ((52:ℤ) - e0))
    (hLB : (2:ℚ) ^ e0 ≤ (a:ℚ) / b) :
    0 ≤ (rheNat A B : ℚ) * 2 ^ (e0 - 52) ∧
    (rheNat A B : ℚ) * 2 ^ (e0 - 52) ≤ (a:ℚ) / b + ((a:ℚ) / b) / 2 ^ 53 := by
  have h2 : (2:ℚ) ≠ 0 := by norm_num
  have hp : (0:ℚ) < 2 ^ (e0 - 52 : ℤ) := zpow_pos (by norm_num) _
  obtain ⟨hg, hl⟩ := rheNat_bounds A B hB
  constructor
  · exact mul_nonneg (Nat.cast_nonneg _) hp.le
  · have step1 : (rheNat A B : ℚ) * 2 ^ (e0 - 52) ≤
        ((A:ℚ) / B + 1 / 2) * 2 ^ (e0 - 52) :=
      mul_le_mul_of_nonneg_right hl hp.le
    have hAB : ((A:ℚ) / B) * 2 ^ (e0 - 52) = (a:ℚ) / b := by
      rw [hratio, mul_assoc, ← zpow_add₀ h2]
      rw [show (52:ℤ) - e0 + (e0 - 52) = 0 by ring, zpow_zero, mul_one]
    have hhalf : (1 / 2 : ℚ) * 2 ^ (e0 - 52) = 2 ^ (e0 - 53) := by
      rw [show (e0 - 52 : ℤ) = (e0 - 53) + 1 by ring, zpow_add_one₀ h2]
      ring
    have htiny : (2:ℚ) ^ (e0 - 53 : ℤ) ≤ ((a:ℚ) / b) / 2 ^ 53 := by
      have hconv : ((a:ℚ) / b) / 2 ^ 53 = ((a:ℚ) / b) * 2 ^ (-53 : ℤ) := by
        rw [div_eq_mul_inv ((a:ℚ) / b), ← zpow_natCast (2:ℚ) 53, ← zpow_neg]
        norm_num
      rw [hconv, show (e0 - 53 : ℤ) = e0 + (-53) by ring, zpow_add₀ h2]
      exact mul_le_mul_of_nonneg_right hLB (zpow_pos (by norm_num) _).le
    calc (rheNat A B : ℚ) * 2 ^ (e0 - 52)
        ≤ ((A:ℚ) / B + 1 / 2) * 2 ^ (e0 - 52) := step1
      _ = ((A:ℚ) / B) * 2 ^ (e0 - 52) + (1 / 2) * 2 ^ (e0 - 52) := by ring
      _ = (a:ℚ) / b + 2 ^ (e0 - 53) := by rw [hAB, hhalf]
      _ ≤ (a:ℚ) / b + ((a:ℚ) / b) / 2 ^ 53 := by linarith [htiny]

theorem flPair_spec (a b m : Nat) (e : Int) (hb : 0 < b)
    (hm : flRat a b = (m, e)) :
    0 ≤ (m:ℚ) * 2 ^ e ∧
    (m:ℚ) * 2 ^ e ≤ (a:ℚ) / b + ((a:ℚ) / b) / 2 ^ 53 := by
  by_cases ha : a = 0
  · subst ha
    unfold flRat at hm
    rw [if_pos rfl] at hm
    injection hm with hm1 hm2
    subst hm1
    subst hm2
    norm_num
  · have ha' : 0 < a := Nat.pos_of_ne_zero ha
    obtain ⟨hLB, _⟩ := ratLog2_spec a b ha' hb
    unfold flRat at hm
    rw [if_neg ha] at hm
    set e0 := ratLog2 a b with he0
    split_ifs at hm with hs
    · injection hm with hm1 hm2
      subst hm1
      subst hm2
      have h2k : ((2:ℚ)) ^ ((52:ℤ) - e0) = (2:ℚ) ^ ((52 - e0).toNat) := by
        rw [← zpow_natCast (2:ℚ) ((52 - e0).toNat), Int.toNat_of_nonneg hs]
      have hratio : ((a * 2 ^ ((52:ℤ) - e0).toNat : Nat) : ℚ) / b =
          ((a:ℚ) / b) * 2 ^ ((52:ℤ) - e0) := by
        push_cast
        rw [h2k]
        ring
      exact fl_core a b (a * 2 ^ ((52:ℤ) - e0).toNat) b e0 hb hratio hLB
    · injection hm with hm1 hm2
      subst hm1
      subst hm2
      have hk : (0:ℤ) ≤ e0 - 52 := by omega
      have h2k : ((2:ℚ)) ^ ((e0:ℤ) - 52) = (2:ℚ) ^ ((e0 - 52).toNat) := by
        rw [← zpow_natCast (2:ℚ) ((e0 - 52).toNat), Int.toNat_of_nonneg hk]
      have hBpos : 0 < b * 2 ^ ((e0:ℤ) - 52).toNat :=
        Nat.mul_pos hb (pow_pos (by norm_num) _)
      have hratio : (a : ℚ) / ((b * 2 ^ ((e0:ℤ) - 52).toNat : Nat) : ℚ) =
          ((a:ℚ) / b) * 2 ^ ((52:ℤ) - e0) := by
        push_cast
        rw [show ((52:ℤ) - e0) = -(e0 - 52) by ring, zpow_neg, h2k]
        rw [div_mul_eq_div_div, div_eq_mul_inv ((a:ℚ) / b)]
      exact fl_core a b a (b * 2 ^ ((e0:ℤ) - 52).toNat) e0 hBpos hratio hLB

/-! ### C1: addShow dedup -/

/-- C1: `addShow` with an id already present in the document is a no-op,
and consequently any sequence of `addShow` calls starting from a document
with pairwise-distinct show ids yields a document whose show ids are
still pairwise distinct (at most one entry per id). -/
theorem addShow_dedup :
    (∀ (doc : Doc) (cs : CatalogShow) (det : Option ShowDetails) (now : String),
      isShowAdded doc cs.id = true → addShow doc cs det now = doc) ∧
    (∀ (ops : List (CatalogShow × Option ShowDetails × String)) (doc : Doc),
      (doc.map Show.id).Nodup →
      ((ops.foldl (fun d o => addShow d o.1 o.2.1 o.2.2) doc).map Show.id).Nodup) :=
  ⟨addShow_of_present, foldl_addShow_ids_nodup⟩

/-- C1 witness: on the concrete document `demoDoc` the id 1 is present, so
adding it again is a no-op; and a concrete add sequence with a duplicated
id keeps the ids pairwise distinct. -/
theorem addShow_dedup_witness :
    addShow demoDoc ⟨1, "Demo", ""⟩ (some ⟨"", [], []⟩) "2024-01-02" = demoDoc ∧
    (([(⟨2, "B", ""⟩, some ⟨"", [], []⟩, "t"), (⟨2, "B", ""⟩, some ⟨"", [], []⟩, "t")].foldl
        (fun d o => addShow d o.1 o.2.1 o.2.2) demoDoc).map Show.id).Nodup :=
  ⟨addShow_dedup.1 demoDoc ⟨1, "Demo", ""⟩ (some ⟨"", [], []⟩) "2024-01-02" (by decide),
    addShow_dedup.2 _ demoDoc (by decide)⟩

theorem jsRoundPair_le (m : Nat) (e : Int) (N : Nat)
    (h : (m:ℚ) * 2 ^ e + 1 / 2 < (N:ℚ) + 1) : jsRoundPair m e ≤ N := by
  unfold jsRoundPair
  split_ifs with he
  · have hval : ((m * 2 ^ e.toNat : Nat) : ℚ) = (m:ℚ) * 2 ^ e := by
      push_cast
      rw [← zpow_natCast (2:ℚ) e.toNat, Int.toNat_of_nonneg he]
    have hlt : ((m * 2 ^ e.toNat : Nat) : ℚ) < ((N + 1 : Nat) : ℚ) := by
      rw [hval]
      push_cast
      linarith
    have : m * 2 ^ e.toNat < N + 1 := by exact_mod_cast hlt
    omega
  · set D := 2 ^ (-e).toNat with hDdef
    have hD0 : 0 < D := pow_pos (by norm_num) _
    have hD' : (0:ℚ) < (D:ℚ) := by exact_mod_cast hD0
    have he' : (0:ℤ) ≤ -e := by omega
    have hDq : (D:ℚ) = 2 ^ (-e : ℤ) := by
      rw [hDdef]
      exact (zpow_toNat (-e) he').symm
    have hval : (m:ℚ) * 2 ^ e = (m:ℚ) / D := by
      rw [eq_div_iff hD'.ne', hDq, mul_assoc, ← zpow_add₀ (by norm_num : (2:ℚ) ≠ 0)]
      rw [show e + -e = 0 by ring, zpow_zero, mul_one]
    have hexp : ((m:ℚ) / D + 1 / 2) * (2 * D) = 2 * m + D := by
      field_simp
      ring
    have h2 : ((m:ℚ) / D + 1 / 2) * (2 * D) < ((N:ℚ) + 1) * (2 * D) := by
      apply mul_lt_mul_of_pos_right _ (by linarith)
      rw [← hval]
      linarith
    have hc : ((2 * m + D : Nat) : ℚ) < (((N + 1) * (2 * D) : Nat) : ℚ) := by
      push_cast
      push_cast at hexp
      linarith
    have hlt : 2 * m + D < (N + 1) * (2 * D) := by exact_mod_cast hc
    have := (Nat.div_lt_iff_lt_mul (by omega : 0 < 2 * D)).mpr hlt
    omega

theorem jsPercent_le_100 (w t : Nat) (hw : w ≤ t) (ht : 0 < t) :
    jsPercent w t ≤ 100 := by
  have ht' : (0:ℚ) < t := by exact_mod_cast ht
  rcases h1 : flRat w t with ⟨m1, e1⟩
  rcases h2 : flRat (m1 * 100 * pow2Pos e1) (pow2Neg e1) with ⟨m2, e2⟩
  have hjs : jsPercent w t = jsRoundPair m2 e2 := by
    simp [jsPercent, h1, h2]
  rw [hjs]
  obtain ⟨hv1n, hv1u⟩ := flPair_spec w t m1 e1 ht h1
  obtain ⟨hv2n, hv2u⟩ := flPair_spec (m1 * 100 * pow2Pos e1) (pow2Neg e1) m2 e2
    (pow2Neg_pos e1) h2
  have hu : ((m1 * 100 * pow2Pos e1 : Nat) : ℚ) / ((pow2Neg e1 : Nat) : ℚ) =
      100 * ((m1:ℚ) * 2 ^ e1) := by
    push_cast
    rw [mul_div_assoc, pow2_ratio e1]
    ring
  have hq1 : (w:ℚ) / t ≤ 1 := by
    rw [div_le_one ht']
    exact_mod_cast hw
  have hq53 : ((w:ℚ) / t) / 2 ^ 53 ≤ 1 / 2 ^ 53 :=
    (div_le_div_iff_of_pos_right (by positivity)).mpr hq1
  have hv1 : (m1:ℚ) * 2 ^ e1 ≤ 1 + 1 / 2 ^ 53 := by linarith
  rw [hu] at hv2u
  have h100 : 100 * ((m1:ℚ) * 2 ^ e1) ≤ 100 * (1 + 1 / 2 ^ 53) := by linarith
  have hdivm : (100 * ((m1:ℚ) * 2 ^ e1)) / 2 ^ 53 ≤
      (100 * ((1:ℚ) + 1 / 2 ^ 53)) / 2 ^ 53 :=
    (div_le_div_iff_of_pos_right (by positivity)).mpr h100
  have hnum : (100:ℚ) * (1 + 1 / 2 ^ 53) + (100 * ((1:ℚ) + 1 / 2 ^ 53)) / 2 ^ 53 + 1 / 2 <
      (100:ℚ) + 1 := by norm_num
  apply jsRoundPair_le
  push_cast
  linarith

/-! ### C2: progress over the active overlay, bounds -/

/-- C2 counterexample: on the concrete show with 23 of 40 episodes
watched, the program's binary64 evaluation of
`Math.round((watched/total)*100)` yields 57 — the double `(23/40)*100`
is `57.49999999999999`, just below the half — while the claim's exact
formula `round(100*23/40) = round(57.5)` yields 58. -/
theorem getWatchProgress_float_counterexample :
    seasonsWatched demoShow2340.seasons = 23 ∧
    seasonsTotal demoShow2340.seasons = 40 ∧
    (getWatchProgress demoShow2340).percentage = 57 ∧
    roundPct 23 40 = 58 :=
  ⟨by decide, by decide, by decide, by decide⟩

/-- C2 amended: `getWatchProgress` counts watched and total over the
currently active overlay's season map; for `total > 0` the percentage is
`Math.round((watched/total)*100)` **as evaluated in binary64** (which can
land on the other side of a half than the exact rounding of
`100*watched/total`), and 0 when `total = 0`; the percentage always lies
between 0 and 100, and the `total = 0` case never divides. -/
theorem getWatchProgress_amended (s : Show) :
    getWatchProgress s =
      { watched := seasonsWatched (getCurrentWatchData s).seasons,
        total := seasonsTotal (getCurrentWatchData s).seasons,
        percentage :=
          if 0 < seasonsTotal (getCurrentWatchData s).seasons then
            jsPercent (seasonsWatched (getCurrentWatchData s).seasons)
              (seasonsTotal (getCurrentWatchData s).seasons)
          else 0 } ∧
    (getWatchProgress s).percentage ≤ 100 ∧
    ((getWatchProgress s).total = 0 → (getWatchProgress s).percentage = 0) := by
  refine ⟨rfl, ?_, ?_⟩
  · by_cases ht : 0 < seasonsTotal (getCurrentWatchData s).seasons
    · have := jsPercent_le_100 _ _
        (seasonsWatched_le_seasonsTotal (getCurrentWatchData s).seasons) ht
      simpa [getWatchProgress, ht] using this
    · simp [getWatchProgress, ht]
  · intro h
    have ht : seasonsTotal (getCurrentWatchData s).seasons = 0 := h
    simp [getWatchProgress, ht]

/-- C2 witness: the zero-episode show reports total 0 with percentage 0,
and the demo show's percentage lies within the bound. -/
theorem getWatchProgress_amended_witness :
    (getWatchProgress { demoShow with seasons := [] }).percentage = 0 ∧
    (getWatchProgress demoShow).percentage ≤ 100 :=
  ⟨(getWatchProgress_amended { demoShow with seasons := [] }).2.2 rfl,
    (getWatchProgress_amended demoShow).2.1⟩

/-! ### C3: rewatch numbering -/

/-- C3: `startRewatch` appends exactly one new overlay, with
`watchNumber = 2 + count(existing rewatches)`, and sets `currentRewatch`
to that number; hence on a show whose rewatches were all created by
`startRewatch` (starting from none), after `n` calls the watch numbers
are exactly `2, 3, …, n+1` — the nth created rewatch has
`watchNumber = n+1` — the sequence is strictly ascending, and
`currentRewatch = n+1` once `n ≥ 1`. -/
theorem startRewatch_numbering :
    (∀ (s : Show),
      (startRewatchShow s).rewatches =
        s.rewatches ++ [⟨s.rewatches.length + 2, cloneSeasonsUnwatched s.seasons⟩] ∧
      (startRewatchShow s).currentRewatch = some (s.rewatches.length + 2)) ∧
    (∀ (s : Show) (n : Nat), s.rewatches = [] →
      ((startRewatchShow^[n] s).rewatches.map WatchOverlay.watchNumber =
        (List.range n).map (fun i => i + 2)) ∧
      ((startRewatchShow^[n] s).rewatches.map WatchOverlay.watchNumber).Pairwise (· < ·) ∧
      (0 < n → (startRewatchShow^[n] s).currentRewatch = some (n + 1))) := by
  have hstep : ∀ (s : Show),
      (startRewatchShow s).rewatches =
        s.rewatches ++ [⟨s.rewatches.length + 2, cloneSeasonsUnwatched s.seasons⟩] ∧
      (startRewatchShow s).currentRewatch = some (s.rewatches.length + 2) := by
    intro s; exact ⟨rfl, rfl⟩
  refine ⟨hstep, ?_⟩
  intro s n h0
  have key : ∀ m : Nat,
      ((startRewatchShow^[m] s).rewatches.map WatchOverlay.watchNumber =
        (List.range m).map (fun i => i + 2)) ∧
      (0 < m → (startRewatchShow^[m] s).currentRewatch = some (m + 1)) := by
    intro m
    induction m with
    | zero => simp [h0]
    | succ k ih =>
      rw [Function.iterate_succ_apply']
      obtain ⟨ihmap, _⟩ := ih
      have hlen : (startRewatchShow^[k] s).rewatches.length = k := by
        have := congrArg List.length ihmap
        simpa using this
      obtain ⟨hrw, hcur⟩ := hstep (startRewatchShow^[k] s)
      constructor
      · rw [hrw, List.map_append, ihmap, List.range_succ, List.map_append, hlen]
        simp
      · intro _
        rw [hcur, hlen]
  obtain ⟨hmap, hcur⟩ := key n
  refine ⟨hmap, ?_, hcur⟩
  rw [hmap]
  exact List.Pairwise.map _ (fun a b hab => by omega) (List.pairwise_lt_range n)

/-- C3 witness: two consecutive rewatch starts on the concrete show give
watch numbers `[2, 3]`, strictly ascending, with `currentRewatch = 3`;
and a single call on `demoShow` appends the overlay with number 2. -/
theorem startRewatch_numbering_witness :
    ((startRewatchShow demoShow).rewatches =
        demoShow.rewatches ++
          [⟨demoShow.rewatches.length + 2, cloneSeasonsUnwatched demoShow.seasons⟩] ∧
      (startRewatchShow demoShow).currentRewatch =
        some (demoShow.rewatches.length + 2)) ∧
    ((startRewatchShow^[2] demoShow).rewatches.map WatchOverlay.watchNumber =
        (List.range 2).map (fun i => i + 2)) ∧
    ((startRewatchShow^[2] demoShow).rewatches.map WatchOverlay.watchNumber).Pairwise
      (· < ·) ∧
    (0 < 2 → (startRewatchShow^[2] demoShow).currentRewatch = some 3) :=
  ⟨startRewatch_numbering.1 demoShow, startRewatch_numbering.2 demoShow 2 rfl⟩

/-! ### Lemmas about optMap and updateSeason -/

theorem optMap_mem {α β : Type} {f : α → Option β} :
    ∀ {l : List α} {l' : List β}, optMap f l = some l' →
      ∀ y ∈ l', ∃ x ∈ l, f x = some y := by
  intro l
  induction l with
  | nil =>
    intro l' h y hy
    simp [optMap] at h
    subst h
    simp at hy
  | cons x xs ih =>
    intro l' h y hy
    unfold optMap at h
    rcases hfx : f x with _ | y0 <;> rcases hxs : optMap f xs with _ | ys0 <;>
      rw [hfx, hxs] at h <;> simp at h
    subst h
    rcases List.mem_cons.mp hy with h1 | h1
    · exact ⟨x, List.mem_cons_self x xs, by rw [hfx, h1]⟩
    · obtain ⟨x2, hx2, hfx2⟩ := ih hxs y h1
      exact ⟨x2, List.mem_cons_of_mem x hx2, hfx2⟩

theorem optMap_some_of_forall {α : Type} {f : α → Option α} :
    ∀ {l : List α}, (∀ x ∈ l, f x = some x) → optMap f l = some l := by
  intro l
  induction l with
  | nil => intro _; rfl
  | cons x xs ih =>
    intro h
    unfold optMap
    rw [h x (List.mem_cons_self x xs), ih (fun y hy => h y (List.mem_cons_of_mem x hy))]

theorem optMap_none_of_mem {α β : Type} {f : α → Option β} :
    ∀ {l : List α} {x : α}, x ∈ l → f x = none → optMap f l = none := by
  intro l
  induction l with
  | nil => intro x hx; simp at hx
  | cons y ys ih =>
    intro x hx hfx
    unfold optMap
    rcases List.mem_cons.mp hx with h1 | h1
    · subst h1
      rw [hfx]
    · rw [ih h1 hfx]
      rcases f y with _ | _ <;> rfl

theorem map_episode_id (f : Episode → Episode) (hf : ∀ e, (f e).id = e.id)
    (l : List Episode) : (l.map f).map Episode.id = l.map Episode.id := by
  induction l with
  | nil => rfl
  | cons e l ih => simp [hf, ih]

theorem updateSeason_shape (f : Episode → Episode) (hf : ∀ e, (f e).id = e.id) :
    ∀ (sm sm' : SeasonMap) (season : Nat),
      updateSeason sm season (fun eps => eps.map f) = some sm' →
      shape sm' = shape sm := by
  intro sm
  induction sm with
  | nil =>
    intro sm' season h
    simp [updateSeason] at h
  | cons p ps ih =>
    intro sm' season h
    unfold updateSeason at h
    by_cases hp : (p.1 == season) = true
    · rw [if_pos hp] at h
      cases h
      simp only [shape, List.map_cons]
      rw [map_episode_id f hf]
    · rw [if_neg hp] at h
      obtain ⟨ps', hps', rfl⟩ := Option.map_eq_some'.mp h
      simp only [shape, List.map_cons]
      have := ih ps' season hps'
      unfold shape at this
      rw [this]

theorem flipEpisode_id (epId : Nat) (e : Episode) : (flipEpisode epId e).id = e.id := by
  unfold flipEpisode
  split <;> rfl

/-! ### Preservation of the overlay-shape invariant -/

theorem updateActiveSeason_showInv (s s' : Show) (season : Nat) (f : Episode → Episode)
    (hf : ∀ e, (f e).id = e.id)
    (h : updateActiveSeason s season f = some s') (hs : ShowInv s) : ShowInv s' := by
  unfold updateActiveSeason at h
  by_cases hfw : isFirstWatch s = true
  · rw [if_pos hfw] at h
    obtain ⟨sm, hsm, rfl⟩ := Option.map_eq_some'.mp h
    intro rw hrw
    have hsh := updateSeason_shape f hf s.seasons sm season hsm
    have := hs rw hrw
    simpa [hsh] using this
  · rw [if_neg hfw] at h
    obtain ⟨rws, hrws, rfl⟩ := Option.map_eq_some'.mp h
    intro rw hrw
    obtain ⟨x, hx, hfx⟩ := optMap_mem hrws rw hrw
    by_cases hn : (x.watchNumber == s.currentRewatch.getD 0) = true
    · rw [if_pos hn] at hfx
      obtain ⟨sm, hsm, rfl⟩ := Option.map_eq_some'.mp hfx
      have hsh := updateSeason_shape f hf x.seasons sm season hsm
      simpa [hsh] using hs x hx
    · rw [if_neg hn] at hfx
      exact (Option.some.inj hfx) ▸ hs x hx

theorem toggleEpisodeWatched_docInv (doc doc' : Doc) (id season epId : Nat)
    (h : toggleEpisodeWatched doc id season epId = some doc') (hinv : DocInv doc) :
    DocInv doc' := by
  intro s' hs'
  obtain ⟨s, hs, hfs⟩ := optMap_mem h s' hs'
  by_cases hid : (s.id == id) = true
  · rw [if_pos hid] at hfs
    exact updateActiveSeason_showInv s s' season (flipEpisode epId)
      (flipEpisode_id epId) hfs (hinv s hs)
  · rw [if_neg hid] at hfs
    exact (Option.some.inj hfs) ▸ hinv s hs

theorem markSeasonComplete_docInv (doc doc' : Doc) (id season : Nat) (w : Bool)
    (h : markSeasonComplete doc id season w = some doc') (hinv : DocInv doc) :
    DocInv doc' := by
  intro s' hs'
  obtain ⟨s, hs, hfs⟩ := optMap_mem h s' hs'
  by_cases hid : (s.id == id) = true
  · rw [if_pos hid] at hfs
    exact updateActiveSeason_showInv s s' season (fun e => { e with watched := w })
      (fun e => rfl) hfs (hinv s hs)
  · rw [if_neg hid] at hfs
    exact (Option.some.inj hfs) ▸ hinv s hs

theorem cloneSeasonsUnwatched_shape (sm : SeasonMap) :
    shape (cloneSeasonsUnwatched sm) = shape sm := by
  induction sm with
  | nil => rfl
  | cons p ps ih =>
    simp only [cloneSeasonsUnwatched, shape, List.map_cons] at ih ⊢
    rw [map_episode_id (fun e => { e with watched := false }) (fun e => rfl)]
    rw [ih]

theorem cloneSeasonsUnwatched_unwatched (sm : SeasonMap) :
    ∀ p ∈ cloneSeasonsUnwatched sm, ∀ e ∈ p.2, e.watched = false := by
  intro p hp e he
  unfold cloneSeasonsUnwatched at hp
  obtain ⟨q, _, rfl⟩ := List.mem_map.mp hp
  obtain ⟨e0, _, rfl⟩ := List.mem_map.mp he
  rfl

theorem startRewatchShow_showInv (s : Show) (hs : ShowInv s) :
    ShowInv (startRewatchShow s) := by
  intro rw hrw
  unfold startRewatchShow at hrw ⊢
  rcases List.mem_append.mp hrw with h | h
  · exact hs rw h
  · simp at h
    subst h
    exact cloneSeasonsUnwatched_shape s.seasons

theorem startRewatch_docInv (doc : Doc) (id : Nat) (hinv : DocInv doc) :
    DocInv (startRewatch doc id) := by
  intro s' hs'
  obtain ⟨s, hs, rfl⟩ := List.mem_map.mp hs'
  by_cases hid : (s.id == id) = true
  · rw [if_pos hid]
    exact startRewatchShow_showInv s (hinv s hs)
  · rw [if_neg hid]
    exact hinv s hs

theorem addShow_docInv (doc : Doc) (cs : CatalogShow) (det : Option ShowDetails)
    (now : String) (hinv : DocInv doc) : DocInv (addShow doc cs det now) := by
  unfold addShow
  split
  · exact hinv
  · cases det with
    | none => exact hinv
    | some d =>
      intro s hs
      rcases List.mem_cons.mp hs with h | h
      · subst h
        intro rw hrw
        simp at hrw
      · exact hinv s h

theorem removeShow_docInv (doc : Doc) (id : Nat) (hinv : DocInv doc) :
    DocInv (removeShow doc id) := by
  intro s hs
  exact hinv s (List.mem_of_mem_filter hs)

theorem updateSource_docInv (doc : Doc) (id : Nat) (v : String) (hinv : DocInv doc) :
    DocInv (updateSource doc id v) := by
  intro s' hs'
  obtain ⟨s, hs, rfl⟩ := List.mem_map.mp hs'
  by_cases hid : (s.id == id) = true
  · rw [if_pos hid]
    exact hinv s hs
  · rw [if_neg hid]
    exact hinv s hs

theorem switchToWatch_docInv (doc : Doc) (id w : Nat) (hinv : DocInv doc) :
    DocInv (switchToWatch doc id w) := by
  intro s' hs'
  obtain ⟨s, hs, rfl⟩ := List.mem_map.mp hs'
  by_cases hid : (s.id == id) = true
  · rw [if_pos hid]
    exact hinv s hs
  · rw [if_neg hid]
    exact hinv s hs

/-! ### C4: the overlay-shape invariant is preserved by every operation -/

/-- C4: in every document satisfying the overlay-shape invariant (every
rewatch overlay has the same season keys and per-season episode-id lists
as its show's base seasons), each Library Store operation — `addShow`,
`removeShow`, `updateSource`, `switchToWatch`, `toggleEpisodeWatched`,
`markSeasonComplete`, `startRewatch` — preserves the invariant; moreover
the overlay appended by `startRewatch` has the base shape with every
episode's `watched` set to false. -/
theorem docInv_preserved (doc : Doc) (hinv : DocInv doc) :
    (∀ (cs : CatalogShow) (det : Option ShowDetails) (now : String),
      DocInv (addShow doc cs det now)) ∧
    (∀ id, DocInv (removeShow doc id)) ∧
    (∀ id v, DocInv (updateSource doc id v)) ∧
    (∀ id w, DocInv (switchToWatch doc id w)) ∧
    (∀ id season epId doc', toggleEpisodeWatched doc id season epId = some doc' →
      DocInv doc') ∧
    (∀ id season w doc', markSeasonComplete doc id season w = some doc' →
      DocInv doc') ∧
    (∀ id, DocInv (startRewatch doc id)) ∧
    (∀ s ∈ doc, ∃ rw,
      (startRewatchShow s).rewatches.getLast? = some rw ∧
      shape rw.seasons = shape s.seasons ∧
      ∀ p ∈ rw.seasons, ∀ e ∈ p.2, e.watched = false) := by
  refine ⟨fun cs det now => addShow_docInv doc cs det now hinv,
    fun id => removeShow_docInv doc id hinv,
    fun id v => updateSource_docInv doc id v hinv,
    fun id w => switchToWatch_docInv doc id w hinv,
    fun id season epId doc' h => toggleEpisodeWatched_docInv doc doc' id season epId h hinv,
    fun id season w doc' h => markSeasonComplete_docInv doc doc' id season w h hinv,
    fun id => startRewatch_docInv doc id hinv,
    ?_⟩
  intro s _
  refine ⟨⟨s.rewatches.length + 2, cloneSeasonsUnwatched s.seasons⟩, ?_, ?_, ?_⟩
  · unfold startRewatchShow
    exact List.getLast?_concat _
  · exact cloneSeasonsUnwatched_shape s.seasons
  · exact cloneSeasonsUnwatched_unwatched s.seasons

/-- C4 witness: the invariant holds for the concrete document and is
preserved by each operation applied to it, including a successful toggle
and season-mark; the overlay created by `startRewatch` on the concrete
show is a fresh unwatched clone of its base seasons. -/
theorem docInv_preserved_witness :
    DocInv (addShow demoDoc ⟨2, "B", ""⟩ (some ⟨"", [], [⟨21, 1, 1, "e", none⟩]⟩) "t") ∧
    DocInv (removeShow demoDoc 1) ∧
    DocInv (updateSource demoDoc 1 "Netflix") ∧
    DocInv (switchToWatch demoDoc 1 2) ∧
    DocInv demoDocToggled ∧
    DocInv demoDocMarked ∧
    DocInv (startRewatch demoDoc 1) ∧
    (∃ rw, (startRewatchShow demoShow).rewatches.getLast? = some rw ∧
      shape rw.seasons = shape demoShow.seasons ∧
      ∀ p ∈ rw.seasons, ∀ e ∈ p.2, e.watched = false) := by
  have h := docInv_preserved demoDoc (by decide)
  exact ⟨h.1 ⟨2, "B", ""⟩ (some ⟨"", [], [⟨21, 1, 1, "e", none⟩]⟩) "t",
    h.2.1 1, h.2.2.1 1 "Netflix", h.2.2.2.1 1 2,
    h.2.2.2.2.1 1 1 10 demoDocToggled (by decide),
    h.2.2.2.2.2.1 1 1 true demoDocMarked (by decide),
    h.2.2.2.2.2.2.1 1,
    h.2.2.2.2.2.2.2 demoShow (by decide)⟩

/-! ### Frame lemmas for updateSeason and optMap -/

theorem updateSeason_decomp (season : Nat) (f : List Episode → List Episode) :
    ∀ (smPre : SeasonMap) (eps : List Episode) (smPost : SeasonMap),
      (∀ q ∈ smPre, q.1 ≠ season) →
      updateSeason (smPre ++ (season, eps) :: smPost) season f =
        some (smPre ++ (season, f eps) :: smPost) := by
  intro smPre
  induction smPre with
  | nil =>
    intro eps smPost _
    simp [updateSeason]
  | cons q qs ih =>
    intro eps smPost hpre
    have hq : (q.1 == season) = false := by
      simpa using hpre q (List.mem_cons_self q qs)
    unfold updateSeason
    simp only [List.cons_append, hq, Bool.false_eq_true, if_false]
    rw [ih eps smPost (fun r hr => hpre r (List.mem_cons_of_mem q hr))]
    rfl

theorem updateSeason_none_of_lookup_none (season : Nat) (f : List Episode → List Episode) :
    ∀ sm : SeasonMap, lookupSeason sm season = none →
      updateSeason sm season f = none := by
  intro sm
  induction sm with
  | nil => intro _; rfl
  | cons p ps ih =>
    intro h
    unfold updateSeason
    rcases hp : (p.1 == season) with _ | _
    · simp only [lookupSeason, List.find?_cons, hp] at h
      simp only [hp, Bool.false_eq_true, if_false]
      rw [ih h]
      rfl
    · simp only [lookupSeason, List.find?_cons, hp] at h
      simp at h

theorem updateSeason_of_lookup_fixed (season : Nat) (f : List Episode → List Episode) :
    ∀ (sm : SeasonMap) (eps : List Episode),
      lookupSeason sm season = some eps → f eps = eps →
      updateSeason sm season f = some sm := by
  intro sm
  induction sm with
  | nil =>
    intro eps h _
    simp [lookupSeason] at h
  | cons p ps ih =>
    intro eps h hf
    unfold updateSeason
    rcases hp : (p.1 == season) with _ | _
    · simp only [lookupSeason, List.find?_cons, hp] at h
      simp only [hp, Bool.false_eq_true, if_false]
      rw [ih eps h hf]
      rfl
    · simp only [lookupSeason, List.find?_cons, hp, Option.map_some',
        Option.some.injEq] at h
      subst h
      simp only [hp, if_true, hf]

theorem map_flipEpisode_id (epId : Nat) :
    ∀ l : List Episode, (∀ e ∈ l, e.id ≠ epId) → l.map (flipEpisode epId) = l := by
  intro l
  induction l with
  | nil => intro _; rfl
  | cons e l ih =>
    intro h
    have he : (e.id == epId) = false := by
      simpa using h e (List.mem_cons_self e l)
    simp only [List.map_cons, flipEpisode, he, Bool.false_eq_true, if_false]
    rw [ih (fun x hx => h x (List.mem_cons_of_mem e hx))]

theorem map_flipEpisode_decomp (epId : Nat) (epsPre epsPost : List Episode) (e : Episode)
    (he : e.id = epId) (hothers : ∀ x ∈ epsPre ++ epsPost, x.id ≠ epId) :
    (epsPre ++ e :: epsPost).map (flipEpisode epId) =
      epsPre ++ { e with watched := !e.watched } :: epsPost := by
  rw [List.map_append, List.map_cons]
  rw [map_flipEpisode_id epId epsPre
    (fun x hx => hothers x (List.mem_append_left _ hx))]
  rw [map_flipEpisode_id epId epsPost
    (fun x hx => hothers x (List.mem_append_right _ hx))]
  have : flipEpisode epId e = { e with watched := !e.watched } := by
    simp [flipEpisode, he]
  rw [this]

theorem optMap_frame {α : Type} (g : α → Option α) :
    ∀ (pre : List α) (post : List α) (x x' : α),
      (∀ o ∈ pre, g o = some o) → (∀ o ∈ post, g o = some o) → g x = some x' →
      optMap g (pre ++ x :: post) = some (pre ++ x' :: post) := by
  intro pre
  induction pre with
  | nil =>
    intro post x x' _ hpost hx
    simp only [List.nil_append]
    unfold optMap
    rw [hx, optMap_some_of_forall hpost]
  | cons y ys ih =>
    intro post x x' hpre hpost hx
    simp only [List.cons_append]
    unfold optMap
    rw [hpre y (List.mem_cons_self y ys),
      ih post x x' (fun o ho => hpre o (List.mem_cons_of_mem y ho)) hpost hx]

theorem isFirstWatch_false_of (s : Show) (k : Nat) (h : s.currentRewatch = some k)
    (hk0 : k ≠ 0) (hk1 : k ≠ 1) : isFirstWatch s = false := by
  unfold isFirstWatch
  rw [h]
  simp [hk0, hk1]

/-! ### C5: toggleEpisode targets exactly the active overlay -/

/-- C5: when a materialized rewatch `k` is active (its overlay is the
unique match among `rewatches`), `toggleEpisodeWatched` on one show flips
the `watched` flag of exactly the one matching episode of that overlay,
leaving the base seasons (hence the base watch's matching episode), all
other episodes and seasons of the overlay, all other overlays, and
`currentRewatch` unchanged; when `currentRewatch` is absent or 1, it
rewrites only the base `seasons`, leaving `rewatches` unchanged. -/
theorem toggleEpisode_targets_active :
    (∀ (s : Show) (k season epId : Nat) (rw : WatchOverlay)
      (pre post : List WatchOverlay) (smPre smPost : SeasonMap)
      (epsPre epsPost : List Episode) (e : Episode),
      s.currentRewatch = some k → k ≠ 0 → k ≠ 1 →
      s.rewatches = pre ++ rw :: post →
      (∀ o ∈ pre, o.watchNumber ≠ k) → (∀ o ∈ post, o.watchNumber ≠ k) →
      rw.watchNumber = k →
      rw.seasons = smPre ++ (season, epsPre ++ e :: epsPost) :: smPost →
      (∀ q ∈ smPre, q.1 ≠ season) →
      e.id = epId → (∀ x ∈ epsPre ++ epsPost, x.id ≠ epId) →
      toggleEpisodeShow s season epId =
        some { s with rewatches := pre ++
          { rw with seasons := smPre ++
            (season, epsPre ++ { e with watched := !e.watched } :: epsPost) :: smPost } ::
          post }) ∧
    (∀ (s : Show) (season epId : Nat) (smPre smPost : SeasonMap)
      (epsPre epsPost : List Episode) (e : Episode),
      (s.currentRewatch = none ∨ s.currentRewatch = some 1) →
      s.seasons = smPre ++ (season, epsPre ++ e :: epsPost) :: smPost →
      (∀ q ∈ smPre, q.1 ≠ season) →
      e.id = epId → (∀ x ∈ epsPre ++ epsPost, x.id ≠ epId) →
      toggleEpisodeShow s season epId =
        some { s with seasons := smPre ++
          (season, epsPre ++ { e with watched := !e.watched } :: epsPost) :: smPost }) := by
  constructor
  · intro s k season epId rw pre post smPre smPost epsPre epsPost e
      hcur hk0 hk1 hrws hpre hpost hrwk hrwseasons hsmpre heid hothers
    have hfw : isFirstWatch s = false := isFirstWatch_false_of s k hcur hk0 hk1
    unfold toggleEpisodeShow updateActiveSeason
    rw [hfw]
    simp only [Bool.false_eq_true, if_false]
    rw [hrws, hcur]
    rw [optMap_frame _ pre post rw
      ({ rw with seasons := smPre ++
        (season, epsPre ++ { e with watched := !e.watched } :: epsPost) :: smPost })
      (fun o ho => by
        have hwk : (o.watchNumber == k) = false := by simpa using hpre o ho
        simp [hwk])
      (fun o ho => by
        have hwk : (o.watchNumber == k) = false := by simpa using hpost o ho
        simp [hwk])
      (by
        have hwk : (rw.watchNumber == k) = true := by simp [hrwk]
        have hupd : updateSeason (smPre ++ (season, epsPre ++ e :: epsPost) :: smPost)
            season (fun eps => eps.map (flipEpisode epId)) =
            some (smPre ++
              (season, (epsPre ++ e :: epsPost).map (flipEpisode epId)) :: smPost) :=
          updateSeason_decomp season _ smPre (epsPre ++ e :: epsPost) smPost hsmpre
        rw [map_flipEpisode_decomp epId epsPre epsPost e heid hothers] at hupd
        simp only [Option.getD_some, hwk, if_true]
        rw [hrwseasons, hupd]
        rfl)]
    rfl
  · intro s season epId smPre smPost epsPre epsPost e hcur hseasons hsmpre heid hothers
    have hfw : isFirstWatch s = true := by
      rcases hcur with h | h <;> simp [isFirstWatch, h]
    unfold toggleEpisodeShow updateActiveSeason
    rw [hfw]
    simp only [if_true]
    have hupd : updateSeason (smPre ++ (season, epsPre ++ e :: epsPost) :: smPost)
        season (fun eps => eps.map (flipEpisode epId)) =
        some (smPre ++
          (season, (epsPre ++ e :: epsPost).map (flipEpisode epId)) :: smPost) :=
      updateSeason_decomp season _ smPre (epsPre ++ e :: epsPost) smPost hsmpre
    rw [map_flipEpisode_decomp epId epsPre epsPost e heid hothers] at hupd
    rw [hseasons, hupd]
    rfl

/-- C5 witness: on the concrete show with watch #2 active, toggling
episode 10 flips it inside the rewatch overlay only; on the concrete
first-watch show, the same toggle rewrites only the base seasons. -/
theorem toggleEpisode_targets_active_witness :
    toggleEpisodeShow demoRwShow 1 10 =
      some { demoRwShow with rewatches :=
        [⟨2, [(1, [{ epW with watched := true }, { epU with watched := false }])]⟩] } ∧
    toggleEpisodeShow demoShow 1 10 =
      some { demoShow with seasons := [(1, [{ epW with watched := false }, epU])] } := by
  constructor
  · have h := toggleEpisode_targets_active.1 demoRwShow 2 1 10
      ⟨2, [(1, [{ epW with watched := false }, { epU with watched := false }])]⟩
      [] [] [] [] [] [{ epU with watched := false }] { epW with watched := false }
      rfl (by decide) (by decide) rfl (by simp) (by simp) rfl rfl (by simp)
      rfl (by decide)
    simpa using h
  · have h := toggleEpisode_targets_active.2 demoShow 1 10
      [] [] [] [epU] epW (Or.inl rfl) rfl (by simp) rfl (by decide)
    simpa using h

/-! ### C6: behaviour on absent show / season / episode -/

/-- C6 counterexample: on the concrete document whose show 1 has only
season 1, toggling an episode of the absent season 3 is not a no-op — the
update throws (modelled as `none`) instead of returning the document
unchanged. -/
theorem toggleEpisode_absent_season_not_noop :
    toggleEpisodeWatched demoDoc 1 3 10 = none ∧
    toggleEpisodeWatched demoDoc 1 3 10 ≠ some demoDoc := by
  constructor <;> decide

/-- C6 amended: `toggleEpisodeWatched` is a genuine no-op (no failure,
document unchanged) when the show id is absent, and when every targeted
show's relevant season map — the base seasons on a first watch, each
matching rewatch overlay's seasons otherwise — has the season but no
episode with the given id; but when a targeted show's relevant season
map (base on first watch, a matching overlay otherwise) lacks the season
key, the operation fails (throws) instead of being a no-op. -/
theorem toggleEpisode_noop_amended :
    (∀ (doc : Doc) (id season epId : Nat),
      (∀ s ∈ doc, s.id ≠ id) →
      toggleEpisodeWatched doc id season epId = some doc) ∧
    (∀ (doc : Doc) (id season epId : Nat),
      (∀ s ∈ doc, s.id = id →
        isFirstWatch s = true ∧
        ∃ eps, lookupSeason s.seasons season = some eps ∧ ∀ e ∈ eps, e.id ≠ epId) →
      toggleEpisodeWatched doc id season epId = some doc) ∧
    (∀ (doc : Doc) (id season epId : Nat),
      (∀ s ∈ doc, s.id = id →
        isFirstWatch s = false ∧
        ∀ rw ∈ s.rewatches, rw.watchNumber = s.currentRewatch.getD 0 →
          ∃ eps, lookupSeason rw.seasons season = some eps ∧ ∀ e ∈ eps, e.id ≠ epId) →
      toggleEpisodeWatched doc id season epId = some doc) ∧
    (∀ (doc : Doc) (id season epId : Nat) (s : Show),
      s ∈ doc → s.id = id → isFirstWatch s = true →
      lookupSeason s.seasons season = none →
      toggleEpisodeWatched doc id season epId = none) ∧
    (∀ (doc : Doc) (id season epId : Nat) (s : Show) (rw : WatchOverlay),
      s ∈ doc → s.id = id → isFirstWatch s = false →
      rw ∈ s.rewatches → rw.watchNumber = s.currentRewatch.getD 0 →
      lookupSeason rw.seasons season = none →
      toggleEpisodeWatched doc id season epId = none) := by
  refine ⟨?_, ?_, ?_, ?_, ?_⟩
  · intro doc id season epId h
    apply optMap_some_of_forall
    intro s hs
    have : (s.id == id) = false := by simpa using h s hs
    simp [this]
  · intro doc id season epId h
    apply optMap_some_of_forall
    intro s hs
    by_cases hid : (s.id == id) = true
    · obtain ⟨hfw, eps, hlook, hno⟩ := h s hs (by simpa using hid)
      rw [if_pos hid]
      unfold toggleEpisodeShow updateActiveSeason
      rw [hfw]
      simp only [if_true]
      rw [updateSeason_of_lookup_fixed season _ s.seasons eps hlook
        (map_flipEpisode_id epId eps hno)]
      rfl
    · rw [if_neg hid]
  · intro doc id season epId h
    apply optMap_some_of_forall
    intro s hs
    by_cases hid : (s.id == id) = true
    · obtain ⟨hfw, hover⟩ := h s hs (by simpa using hid)
      rw [if_pos hid]
      unfold toggleEpisodeShow updateActiveSeason
      rw [hfw]
      simp only [Bool.false_eq_true, if_false]
      rw [optMap_some_of_forall (fun rw hrw => by
        by_cases hm : (rw.watchNumber == s.currentRewatch.getD 0) = true
        · obtain ⟨eps, hlook, hno⟩ := hover rw hrw (by simpa using hm)
          rw [if_pos hm]
          rw [updateSeason_of_lookup_fixed season _ rw.seasons eps hlook
            (map_flipEpisode_id epId eps hno)]
          rfl
        · rw [if_neg hm])]
      rfl
    · rw [if_neg hid]
  · intro doc id season epId s hs hid hfw hlook
    apply optMap_none_of_mem hs
    have hbeq : (s.id == id) = true := by simpa using hid
    rw [if_pos hbeq]
    unfold toggleEpisodeShow updateActiveSeason
    rw [hfw]
    simp only [if_true]
    rw [updateSeason_none_of_lookup_none season _ s.seasons hlook]
    rfl
  · intro doc id season epId s rw hs hid hfw hrw hnum hlook
    apply optMap_none_of_mem hs
    have hbeq : (s.id == id) = true := by simpa using hid
    rw [if_pos hbeq]
    unfold toggleEpisodeShow updateActiveSeason
    rw [hfw]
    simp only [Bool.false_eq_true, if_false]
    rw [optMap_none_of_mem hrw (by
      have hm : (rw.watchNumber == s.currentRewatch.getD 0) = true := by
        simpa using hnum
      rw [if_pos hm]
      rw [updateSeason_none_of_lookup_none season _ rw.seasons hlook]
      rfl)]
    rfl

/-- C6 witness: concrete no-ops for an absent show id, for an absent
episode id on a first watch, and for an absent episode id on an active
rewatch overlay; concrete failures for an absent season, both on a first
watch and on an active rewatch overlay. -/
theorem toggleEpisode_noop_amended_witness :
    toggleEpisodeWatched demoDoc 99 1 10 = some demoDoc ∧
    toggleEpisodeWatched demoDoc 1 1 77 = some demoDoc ∧
    toggleEpisodeWatched [demoRwShow] 1 1 77 = some [demoRwShow] ∧
    toggleEpisodeWatched demoDoc 1 9 10 = none ∧
    toggleEpisodeWatched [demoRwShow] 1 9 10 = none :=
  ⟨toggleEpisode_noop_amended.1 demoDoc 99 1 10 (by decide),
    toggleEpisode_noop_amended.2.1 demoDoc 1 1 77 (by decide),
    toggleEpisode_noop_amended.2.2.1 [demoRwShow] 1 1 77 (by decide),
    toggleEpisode_noop_amended.2.2.2.1 demoDoc 1 9 10 demoShow (by decide) rfl rfl
      (by decide),
    toggleEpisode_noop_amended.2.2.2.2 [demoRwShow] 1 9 10 demoRwShow
      ⟨2, [(1, [{ epW with watched := false }, { epU with watched := false }])]⟩
      (by decide) rfl rfl (by decide) rfl (by decide)⟩

/-! ### C7: dangling currentRewatch -/

/-- C7 counterexample: for the concrete show whose `currentRewatch` is 5
with no matching rewatch entry, `toggleEpisodeWatched` does not treat the
base watch as the active overlay: it leaves the document unchanged,
whereas the same toggle with the base watch genuinely active changes it. -/
theorem danglingRewatch_mutations_not_base :
    toggleEpisodeWatched [cDangShow] 1 1 10 = some [cDangShow] ∧
    toggleEpisodeWatched [{ cDangShow with currentRewatch := some 1 }] 1 1 10 ≠
      some [{ cDangShow with currentRewatch := some 1 }] := by
  constructor <;> decide

/-- C7 amended: when `currentRewatch` names a watch number other than
0 or 1 that matches no entry of `rewatches`, the reads
(`getCurrentWatchData`, and hence `getWatchProgress`) fall back to the
base watch and never throw, while the mutations `toggleEpisodeWatched`
and `markSeasonComplete` are no-ops on that show — they return it
unchanged (never throwing, but also never touching the base seasons). -/
theorem danglingRewatch_amended (s : Show) (k : Nat)
    (hcur : s.currentRewatch = some k) (hk0 : k ≠ 0) (hk1 : k ≠ 1)
    (hdangling : ∀ rw ∈ s.rewatches, rw.watchNumber ≠ k) :
    getCurrentWatchData s = ⟨1, s.seasons⟩ ∧
    getWatchProgress s = getWatchProgress { s with currentRewatch := none } ∧
    (∀ season epId, toggleEpisodeShow s season epId = some s) ∧
    (∀ season w, markSeasonShow s season w = some s) := by
  have hfw : isFirstWatch s = false := isFirstWatch_false_of s k hcur hk0 hk1
  have hfind : s.rewatches.find? (fun rw => rw.watchNumber == k) = none := by
    rw [List.find?_eq_none]
    intro rw hrw
    simpa using hdangling rw hrw
  have hbase : getCurrentWatchData s = ⟨1, s.seasons⟩ := by
    unfold getCurrentWatchData
    rw [hfw]
    simp only [Bool.false_eq_true, if_false]
    rw [hcur]
    simp only [hfind]
  refine ⟨hbase, ?_, ?_, ?_⟩
  · unfold getWatchProgress
    rw [hbase]
    have : getCurrentWatchData { s with currentRewatch := none } =
        ⟨1, ({ s with currentRewatch := none } : Show).seasons⟩ := by
      unfold getCurrentWatchData isFirstWatch
      rfl
    rw [this]
  · intro season epId
    unfold toggleEpisodeShow updateActiveSeason
    rw [hfw]
    simp only [Bool.false_eq_true, if_false]
    rw [optMap_some_of_forall (fun rw hrw => by
      have hwk : (rw.watchNumber == (s.currentRewatch.getD 0)) = false := by
        rw [hcur]
        simpa using hdangling rw hrw
      simp [hwk])]
    rfl
  · intro season w
    unfold markSeasonShow updateActiveSeason
    rw [hfw]
    simp only [Bool.false_eq_true, if_false]
    rw [optMap_some_of_forall (fun rw hrw => by
      have hwk : (rw.watchNumber == (s.currentRewatch.getD 0)) = false := by
        rw [hcur]
        simpa using hdangling rw hrw
      simp [hwk])]
    rfl

/-- C7 witness: the amended behaviour on the concrete dangling show. -/
theorem danglingRewatch_amended_witness :
    getCurrentWatchData cDangShow = ⟨1, cDangShow.seasons⟩ ∧
    getWatchProgress cDangShow =
      getWatchProgress { cDangShow with currentRewatch := none } ∧
    (∀ season epId, toggleEpisodeShow cDangShow season epId = some cDangShow) ∧
    (∀ season w, markSeasonShow cDangShow season w = some cDangShow) :=
  danglingRewatch_amended cDangShow 5 rfl (by decide) (by decide) (by decide)

/-! ### Sorting lemmas -/

theorem insertCmp_perm {α : Type} (c : α → α → Int) (x : α) :
    ∀ l : List α, (insertCmp c x l).Perm (x :: l) := by
  intro l
  induction l with
  | nil => exact List.Perm.refl _
  | cons y ys ih =>
    unfold insertCmp
    by_cases hc : c x y ≤ 0
    · rw [if_pos hc]
    · rw [if_neg hc]
      exact (ih.cons y).trans (List.Perm.swap x y ys)

theorem sortByCmp_perm {α : Type} (c : α → α → Int) :
    ∀ l : List α, (sortByCmp c l).Perm l := by
  intro l
  induction l with
  | nil => exact List.Perm.refl _
  | cons x xs ih =>
    have hs : sortByCmp c (x :: xs) = insertCmp c x (sortByCmp c xs) := rfl
    rw [hs]
    exact (insertCmp_perm c x (sortByCmp c xs)).trans (ih.cons x)

theorem mem_insertCmp {α : Type} (c : α → α → Int) (x : α) :
    ∀ (l : List α) (a : α), a ∈ insertCmp c x l → a = x ∨ a ∈ l := by
  intro l
  induction l with
  | nil =>
    intro a ha
    simp [insertCmp] at ha
    exact Or.inl ha
  | cons y ys ih =>
    intro a ha
    unfold insertCmp at ha
    by_cases hc : c x y ≤ 0
    · rw [if_pos hc] at ha
      exact List.mem_cons.mp ha
    · rw [if_neg hc] at ha
      rcases List.mem_cons.mp ha with h | h
      · exact Or.inr (h ▸ List.mem_cons_self y ys)
      · rcases ih a h with h2 | h2
        · exact Or.inl h2
        · exact Or.inr (List.mem_cons_of_mem y h2)

theorem insertCmp_sorted {α : Type} (c : α → α → Int) (P : α → Prop)
    (hflip : ∀ a b, ¬c a b ≤ 0 → c b a ≤ 0)
    (htrans : ∀ a b d, P a → P b → P d → c a b ≤ 0 → c b d ≤ 0 → c a d ≤ 0)
    (x : α) (hx : P x) :
    ∀ l, (∀ a ∈ l, P a) → List.Pairwise (fun a b => c a b ≤ 0) l →
      List.Pairwise (fun a b => c a b ≤ 0) (insertCmp c x l) := by
  intro l
  induction l with
  | nil =>
    intro _ _
    simp [insertCmp]
  | cons y ys ih =>
    intro hP hsort
    obtain ⟨hy, hys⟩ := List.pairwise_cons.mp hsort
    unfold insertCmp
    by_cases hc : c x y ≤ 0
    · rw [if_pos hc]
      refine List.pairwise_cons.mpr ⟨?_, hsort⟩
      intro z hz
      rcases List.mem_cons.mp hz with h | h
      · exact h ▸ hc
      · exact htrans x y z hx (hP y (List.mem_cons_self y ys))
          (hP z (List.mem_cons_of_mem y h)) hc (hy z h)
    · rw [if_neg hc]
      refine List.pairwise_cons.mpr
        ⟨?_, ih (fun a ha => hP a (List.mem_cons_of_mem y ha)) hys⟩
      intro z hz
      rcases mem_insertCmp c x ys z hz with h | h
      · exact h ▸ hflip x y hc
      · exact hy z h

theorem sortByCmp_sorted {α : Type} (c : α → α → Int) (P : α → Prop)
    (hflip : ∀ a b, ¬c a b ≤ 0 → c b a ≤ 0)
    (htrans : ∀ a b d, P a → P b → P d → c a b ≤ 0 → c b d ≤ 0 → c a d ≤ 0) :
    ∀ l, (∀ a ∈ l, P a) →
      List.Pairwise (fun a b => c a b ≤ 0) (sortByCmp c l) := by
  intro l
  induction l with
  | nil =>
    intro _
    simp [sortByCmp]
  | cons x xs ih =>
    intro hP
    have hs : sortByCmp c (x :: xs) = insertCmp c x (sortByCmp c xs) := rfl
    rw [hs]
    refine insertCmp_sorted c P hflip htrans x (hP x (List.mem_cons_self x xs))
      (sortByCmp c xs) ?_ (ih (fun a ha => hP a (List.mem_cons_of_mem x ha)))
    intro a ha
    exact hP a (List.mem_cons_of_mem x ((sortByCmp_perm c xs).mem_iff.mp ha))

theorem yearCmp_flip (a b : Show) (h : ¬yearCmp a b ≤ 0) : yearCmp b a ≤ 0 := by
  unfold yearCmp at h ⊢
  revert h
  rcases yearKey a with _ | ya <;> rcases yearKey b with _ | yb
  all_goals intro h
  all_goals simp at h ⊢
  all_goals omega

theorem yearCmp_trans (a b d : Show) (ha : (yearKey a).isSome = true)
    (hb : (yearKey b).isSome = true) (hd : (yearKey d).isSome = true)
    (h1 : yearCmp a b ≤ 0) (h2 : yearCmp b d ≤ 0) : yearCmp a d ≤ 0 := by
  obtain ⟨ya, hya⟩ := Option.isSome_iff_exists.mp ha
  obtain ⟨yb, hyb⟩ := Option.isSome_iff_exists.mp hb
  obtain ⟨yd, hyd⟩ := Option.isSome_iff_exists.mp hd
  unfold yearCmp at h1 h2 ⊢
  rw [hya, hyb] at h1
  rw [hyb, hyd] at h2
  rw [hya, hyd]
  simp at h1 h2 ⊢
  omega

/-! ### C8: sort by year -/

/-- C8 counterexample: show 3 has `premiered = "abcd"`, which `parseInt`
turns into `NaN`, not year 0; the NaN comparator result makes the sort
leave it in place before the 2020 show, instead of sorting it after every
show with a parseable year as the claim requires. -/
theorem sortYear_unparseable_not_last :
    sortShowsYear [cShowNaN, cShow2020] = [cShowNaN, cShow2020] ∧
    sortShowsYear [cShowNaN, cShow2020] ≠ [cShow2020, cShowNaN] := by
  constructor <;> decide

/-- C8 amended: sorting by `year` reorders the list (a permutation);
a missing/empty `premiered` is treated as year 0; and whenever every
show's `premiered` is empty or parses to a number (no NaN), the result is
ordered descending by the parsed year. A non-empty `premiered` with no
leading digit yields NaN, whose comparisons count as "equal", so such a
show keeps its relative position instead of sorting last. -/
theorem sortYear_amended :
    (∀ shows : List Show, (sortShowsYear shows).Perm shows) ∧
    (∀ s : Show, s.premiered = "" → yearKey s = some 0) ∧
    (∀ shows : List Show, (∀ s ∈ shows, (yearKey s).isSome = true) →
      (sortShowsYear shows).Pairwise
        (fun a b => (yearKey b).getD 0 ≤ (yearKey a).getD 0)) := by
  refine ⟨fun shows => sortByCmp_perm yearCmp shows, ?_, ?_⟩
  · intro s h
    simp [yearKey, h]
  · intro shows hall
    have hmem : ∀ a ∈ sortShowsYear shows, (yearKey a).isSome = true := fun a ha =>
      hall a ((sortByCmp_perm yearCmp shows).mem_iff.mp ha)
    have hsorted :=
      sortByCmp_sorted yearCmp (fun s => (yearKey s).isSome = true)
        yearCmp_flip yearCmp_trans shows hall
    refine List.Pairwise.imp_of_mem ?_ hsorted
    intro a b hma hmb hab
    obtain ⟨ya, hya⟩ := Option.isSome_iff_exists.mp (hmem a hma)
    obtain ⟨yb, hyb⟩ := Option.isSome_iff_exists.mp (hmem b hmb)
    unfold yearCmp at hab
    rw [hya, hyb] at hab
    rw [hya, hyb]
    simpa using hab

/-- C8 witness: on a concrete list with years 1999, 2020 and a missing
premiere date, the sort is a permutation ordered descending by year with
the missing date treated as year 0 (sorting last). -/
theorem sortYear_amended_witness :
    (sortShowsYear [cShow1999, { demoShow with premiered := "" }, cShow2020]).Perm
      [cShow1999, { demoShow with premiered := "" }, cShow2020] ∧
    yearKey { demoShow with premiered := "" } = some 0 ∧
    (sortShowsYear [cShow1999, { demoShow with premiered := "" }, cShow2020]).Pairwise
      (fun a b => (yearKey b).getD 0 ≤ (yearKey a).getD 0) :=
  ⟨sortYear_amended.1 _, sortYear_amended.2.1 _ rfl,
    sortYear_amended.2.2 _ (by decide)⟩

/-! ### Round-trip lemmas for the JSON codec -/

theorem optMap_map {α β : Type} (f : α → β) (g : β → Option α) :
    ∀ l : List α, (∀ x ∈ l, g (f x) = some x) → optMap g (l.map f) = some l := by
  intro l
  induction l with
  | nil => intro _; rfl
  | cons x xs ih =>
    intro h
    simp only [List.map_cons]
    unfold optMap
    rw [h x (List.mem_cons_self x xs), ih (fun y hy => h y (List.mem_cons_of_mem x hy))]

theorem digitChar_val (d : Nat) (h : d < 10) :
    (Char.ofNat (48 + d)).toNat - 48 = d ∧ (Char.ofNat (48 + d)).isDigit = true := by
  interval_cases d
  all_goals exact ⟨by decide, by decide⟩

theorem natToStringAux_isDigit :
    ∀ fuel n, ∀ c ∈ natToStringAux fuel n, c.isDigit = true := by
  intro fuel
  induction fuel with
  | zero =>
    intro n c hc
    simp [natToStringAux] at hc
  | succ fuel ih =>
    intro n c hc
    unfold natToStringAux at hc
    by_cases h0 : n = 0
    · rw [if_pos h0] at hc
      simp at hc
    · rw [if_neg h0] at hc
      rcases List.mem_append.mp hc with h | h
      · exact ih (n / 10) c h
      · simp at h
        subst h
        exact (digitChar_val (n % 10) (Nat.mod_lt n (by omega))).2

theorem foldl_digits_shift :
    ∀ (cs : List Char) (a : Nat),
      cs.foldl (fun a c => 10 * a + (c.toNat - 48)) a =
        a * 10 ^ cs.length + cs.foldl (fun a c => 10 * a + (c.toNat - 48)) 0 := by
  intro cs
  induction cs with
  | nil => intro a; simp
  | cons c cs ih =>
    intro a
    simp only [List.foldl_cons, List.length_cons]
    rw [ih (10 * a + (c.toNat - 48)), ih (10 * 0 + (c.toNat - 48)), pow_succ]
    ring

theorem natToStringAux_val :
    ∀ fuel n, n ≤ fuel →
      (natToStringAux fuel n).foldl (fun a c => 10 * a + (c.toNat - 48)) 0 = n := by
  intro fuel
  induction fuel with
  | zero =>
    intro n hn
    have : n = 0 := by omega
    subst this
    rfl
  | succ fuel ih =>
    intro n hn
    unfold natToStringAux
    by_cases h0 : n = 0
    · rw [if_pos h0]
      simp [h0]
    · rw [if_neg h0]
      rw [List.foldl_append]
      rw [ih (n / 10) (by
        have : n / 10 < n := Nat.div_lt_self (Nat.pos_of_ne_zero h0) (by omega)
        omega)]
      simp only [List.foldl_cons, List.foldl_nil]
      rw [(digitChar_val (n % 10) (Nat.mod_lt n (by omega))).1]
      omega

theorem natToStringAux_ne_nil (n : Nat) (h0 : n ≠ 0) :
    natToStringAux n n ≠ [] := by
  cases n with
  | zero => exact absurd rfl h0
  | succ m =>
    unfold natToStringAux
    rw [if_neg h0]
    simp

theorem natFromString_natToString (n : Nat) :
    natFromString (natToString n) = some n := by
  by_cases h0 : n = 0
  · subst h0
    decide
  · unfold natToString
    rw [if_neg h0]
    show natFromChars (natToStringAux n n) = some n
    rcases hcs : natToStringAux n n with _ | ⟨c, cs⟩
    · exact absurd hcs (natToStringAux_ne_nil n h0)
    · have hall : ((c :: cs).all Char.isDigit) = true := by
        rw [← hcs, List.all_eq_true]
        intro x hx
        exact natToStringAux_isDigit n n x hx
      simp only [natFromChars, hall, eq_self_iff_true, if_true]
      rw [← hcs]
      rw [natToStringAux_val n n le_rfl]

theorem decodeNat_cast (n : Nat) : decodeNat (Json.num n) = some n := by
  simp only [decodeNat]
  rw [if_pos (by exact_mod_cast Nat.zero_le n)]
  simp

theorem decode_encode_episode (e : Episode) :
    decodeEpisode (encodeEpisode e) = some e := by
  cases e with
  | mk i n m a w =>
    cases a <;>
      simp [decodeEpisode, encodeEpisode, jLookup, decodeNat_cast, decodeString,
        decodeOptString, decodeBool]

theorem decode_encode_seasonMap (sm : SeasonMap) :
    decodeSeasonMap (encodeSeasonMap sm) = some sm := by
  unfold decodeSeasonMap encodeSeasonMap
  apply optMap_map
  intro p _
  unfold decodeSeasonEntry
  simp only [natFromString_natToString, Option.bind_eq_bind, Option.some_bind]
  rw [optMap_map encodeEpisode decodeEpisode p.2 (fun e _ => decode_encode_episode e)]
  rfl

theorem decode_encode_overlay (rw : WatchOverlay) :
    decodeOverlay (encodeOverlay rw) = some rw := by
  cases rw with
  | mk n sm =>
    simp [decodeOverlay, encodeOverlay, jLookup, decodeNat_cast,
      decode_encode_seasonMap]

theorem decode_encode_stringList (l : List String) :
    decodeStringList (Json.arr (l.map Json.str)) = some l := by
  unfold decodeStringList
  exact optMap_map Json.str decodeString l (fun s _ => rfl)

theorem decode_encode_overlayList (l : List WatchOverlay) :
    decodeOverlayList (Json.arr (l.map encodeOverlay)) = some l := by
  unfold decodeOverlayList
  exact optMap_map encodeOverlay decodeOverlay l (fun o _ => decode_encode_overlay o)

theorem decode_encode_show (s : Show) :
    decodeShow (encodeShow s) = some s := by
  cases s with
  | mk i m p im g src se ad rws cur =>
    cases cur <;>
      simp [decodeShow, encodeShow, jLookup, decodeNat_cast, decodeString,
        decode_encode_stringList, decode_encode_seasonMap, decode_encode_overlayList,
        decodeCurrentRewatch]

/-! ### C9: export/import round trip -/

/-- C9: importing an exported document yields the document back
field-for-field: reading the parse tree written by `exportJSON` with
`importData` reconstructs exactly the original document (the text codec
`JSON.stringify`/`JSON.parse` between tree and file is the platform's
inverse pair). -/
theorem importData_exportJSON (doc : Doc) :
    importData (exportJSON doc) = some doc := by
  show optMap decodeShow (doc.map encodeShow) = some doc
  exact optMap_map encodeShow decodeShow doc (fun s _ => decode_encode_show s)

/-! ### C10: the spreadsheet row depends only on the base watch -/

/-- C10: the exported row of a show is computed from the base `seasons`
only — it is unchanged under any change of `currentRewatch` and any
replacement of the rewatch overlays that keeps their number (in
particular any change of rewatch watched flags); its Watched/Total counts
are those of the base seasons; and a show with zero total episodes is
labeled "In Progress", never "✓ COMPLETED". -/
theorem excelRow_base_only :
    (∀ (s : Show) (cur : Option Nat) (rws : List WatchOverlay),
      rws.length = s.rewatches.length →
      excelRow { s with currentRewatch := cur, rewatches := rws } = excelRow s) ∧
    (∀ s : Show, seasonsTotal s.seasons = 0 →
      (excelRow s).status = "In Progress") ∧
    (∀ s : Show, (excelRow s).watched = seasonsWatched s.seasons ∧
      (excelRow s).total = seasonsTotal s.seasons) := by
  refine ⟨?_, ?_, fun s => ⟨rfl, rfl⟩⟩
  · intro s cur rws hlen
    simp [excelRow, hlen]
  · intro s h
    simp [excelRow, h]

/-- C10 witness: rewriting the rewatch overlay's watched flags and
clearing `currentRewatch` leaves the concrete show's row unchanged; a
concrete show with no episodes is labeled "In Progress"; the counts of
the demo row are the base-season counts. -/
theorem excelRow_base_only_witness :
    excelRow { demoRwShow with
      currentRewatch := none,
      rewatches := [⟨2, [(1, [epW, epU])]⟩] } = excelRow demoRwShow ∧
    (excelRow { demoShow with seasons := [] }).status = "In Progress" ∧
    ((excelRow demoShow).watched = seasonsWatched demoShow.seasons ∧
      (excelRow demoShow).total = seasonsTotal demoShow.seasons) :=
  ⟨excelRow_base_only.1 demoRwShow none [⟨2, [(1, [epW, epU])]⟩] (by decide),
    excelRow_base_only.2.1 { demoShow with seasons := [] } rfl,
    excelRow_base_only.2.2 demoShow⟩

end TVTracker
